import Mathlib

/-!
Shallow embedding of the extension runtime in `src/api/src/extensions.ts`
(the `ExtensionManager` class) together with the constants of
`@directus/shared/constants` (provided as `src/unnamed/part_000`).

Modelling conventions:
* The cooperative single-threaded event loop is modelled by plain sequential
  state passing; every manager method becomes a total function on
  `ManagerState`.
* Dynamically `require`d extension modules are part of the environment
  (`Env`): a map from resolved entrypoint path to the module's export, with
  `none` standing for a module whose resolution or evaluation throws.
* A hook module's `register` function is modelled as the list of calls it
  makes to the registration API (`RegCmd`), plus a flag saying whether it
  throws after those calls ("throws partway through").
* The host-wide event bus (`emitter` in the source, a module level import)
  and the node-cron task table are carried inside `ManagerState` so that the
  registration/unregistration protocol is observable.
* `require.cache` eviction (`delete require.cache[...]`) is not modelled:
  module resolution is environment-driven, so there is no global cache.
* The reload job queue serialises jobs; `reloadBody` models the body of one
  enqueued reload job.
-/

/-- Constants from `@directus/shared/constants` (src/unnamed/part_000). -/
def APP_WITHOUT_HYBRID_EXTENSION_TYPES : List String :=
  ["interface", "display", "layout", "module", "panel"]

def API_WITHOUT_HYBRID_EXTENSION_TYPES : List String :=
  ["hook", "endpoint", "storage"]

def HYBRID_EXTENSION_TYPES : List String := ["operation"]

def APP_EXTENSION_TYPES : List String :=
  APP_WITHOUT_HYBRID_EXTENSION_TYPES ++ HYBRID_EXTENSION_TYPES

def API_EXTENSION_TYPES : List String :=
  API_WITHOUT_HYBRID_EXTENSION_TYPES ++ HYBRID_EXTENSION_TYPES

def EXTENSION_TYPES : List String :=
  APP_WITHOUT_HYBRID_EXTENSION_TYPES ++ API_WITHOUT_HYBRID_EXTENSION_TYPES ++
    HYBRID_EXTENSION_TYPES

def PACK_EXTENSION_TYPE : String := "pack"

/-- `path.resolve(dir, file)` / `path.posix.join(dir, file)` as used on
extension directories and entrypoints. -/
def resolvePath (dir file : String) : String := dir ++ "/" ++ file

/-- An extension entrypoint: a single file for api/app extensions, an
`{app, api}` pair for hybrid extensions. -/
inductive Entrypoint where
  | single (file : String)
  | hybrid (app api : String)
deriving Repr, DecidableEq

/-- `entrypoint` as accessed on non-hybrid extensions (a plain string in the
TypeScript union; the hybrid case is unreachable there by type narrowing). -/
def Entrypoint.file : Entrypoint → String
  | Entrypoint.single f => f
  | Entrypoint.hybrid a _ => a

/-- `entrypoint.app` (only reached on hybrid extensions). -/
def Entrypoint.app : Entrypoint → String
  | Entrypoint.single f => f
  | Entrypoint.hybrid a _ => a

/-- `entrypoint.api` (only reached on hybrid extensions). -/
def Entrypoint.api : Entrypoint → String
  | Entrypoint.single f => f
  | Entrypoint.hybrid _ b => b

/-- An extension descriptor as produced by discovery
(`@directus/shared/types` `Extension`). `isLocal` is the `local` flag
(`local` is a Lean keyword). -/
structure Extension where
  name : String
  type : String
  path : String
  entrypoint : Entrypoint
  isLocal : Bool
deriving Repr, DecidableEq

/-- `isExtensionObject(extension, types)` from `@directus/shared/utils`:
a type-guard testing membership of the extension's type. -/
def isExtensionObject (e : Extension) (types : List String) : Bool :=
  types.contains e.type

/-- A handler reference (function identity in the source). -/
abbrev Handler := Nat

/-- A dynamically loaded module export: either the configuration itself or
an object wrapping it under `default`. -/
inductive ModuleExport (α : Type) where
  | bare (config : α)
  | wrapped (config : α)
deriving Repr, DecidableEq

/-- Modelled from the spec: `getModuleDefault` lives in
`src/api/src/utils/get-module-default`, which is not among the provided
sources. The spec says registrars "normalize its export into a single
configuration value regardless of whether it was exported bare or wrapped
as a default". -/
def getModuleDefault {α : Type} : ModuleExport α → α
  | ModuleExport.bare c => c
  | ModuleExport.wrapped c => c

/-- One call a hook module makes against the registration API
(`filter`/`action`/`init`/`schedule` of `registerFunctions`). -/
inductive RegCmd where
  | filter (event : String) (handler : Handler)
  | action (event : String) (handler : Handler)
  | init (event : String) (handler : Handler)
  | schedule (cron : String) (handler : Handler)
deriving Repr, DecidableEq

/-- A hook module's behaviour: the registration calls it performs in order,
and whether it then throws (so the exception reaches the caller's catch
after those calls took effect). -/
structure HookConfig where
  cmds : List RegCmd
  throws : Bool
deriving Repr, DecidableEq

/-- An endpoint module's configuration: a bare handler function, or an
object with an explicit `id` and a handler. -/
inductive EndpointConfig where
  | handlerFn (handler : Handler)
  | obj (id : String) (handler : Handler)
deriving Repr, DecidableEq

/-- An operation module's configuration (`OperationApiConfig`): id and
handler, forwarded to the flow manager. -/
structure OperationApiConfig where
  id : String
  handler : Handler
deriving Repr, DecidableEq

/-- A storage driver configuration payload. -/
abbrev StorageConfig := Nat

/-- The recorded event bindings of one hook (the `events` entries of
`ApiExtensions['hooks']`). A schedule binding records the created task. -/
inductive EventHandler where
  | filterEv (name : String) (handler : Handler)
  | actionEv (name : String) (handler : Handler)
  | initEv (name : String) (handler : Handler)
  | scheduleEv (taskId : Nat)
deriving Repr, DecidableEq

/-- One entry of `apiExtensions.hooks`. -/
structure HookRecord where
  path : String
  events : List EventHandler
deriving Repr, DecidableEq

/-- One entry of `apiExtensions.storages`: the raw module export is stored
(`config: require(storagePath)` — note: no `getModuleDefault` here). -/
structure StorageRecord where
  path : String
  config : ModuleExport StorageConfig
deriving Repr, DecidableEq

/-- The host-wide event bus (`emitter` module import): the currently
registered (event, handler) bindings per kind. -/
structure EmitterState where
  filters : List (String × Handler)
  actions : List (String × Handler)
  inits : List (String × Handler)
deriving Repr, DecidableEq

def emptyEmitter : EmitterState := ⟨[], [], []⟩

/-- A node-cron task created by `schedule(cron, ...)`. The list of tasks in
`ManagerState` is the set of currently scheduled (not yet stopped) tasks;
`task.stop()` removes the task from it. -/
structure ScheduledTask where
  id : Nat
  cron : String
  handler : Handler
deriving Repr, DecidableEq

/-- The manager's runtime options. -/
structure Options where
  schedule : Bool
  watch : Bool
deriving Repr, DecidableEq

/-- `Partial<Options>` as accepted by `initialize`. -/
structure PartialOptions where
  schedule? : Option Bool
  watch? : Option Bool
deriving Repr, DecidableEq

/-- The process environment and external collaborators consumed by the
manager: env flags, the discovery results, the loadable modules per api
extension type, the globby scan of the internal operations folder, the
node-cron `validate` function and the rollup compiler. -/
structure Env where
  SERVE_APP : Bool
  EXTENSIONS_AUTO_RELOAD : Bool
  NODE_ENV : String
  EXTENSIONS_PATH : String
  discoveryThrows : Bool
  packageExtensions : List Extension
  localExtensions : List Extension
  hookModules : String → Option (ModuleExport HookConfig)
  endpointModules : String → Option (ModuleExport EndpointConfig)
  storageModules : String → Option (ModuleExport StorageConfig)
  operationModules : String → Option (ModuleExport OperationApiConfig)
  internalOperationPaths : List String
  validCron : String → Bool
  rollup : String → List Extension → Option String

/-- `defaultOptions` (src line 84): watch is enabled when the auto-reload
env flag is set and the run mode is not development. -/
def defaultOptions (env : Env) : Options :=
  { schedule := true
    watch := env.EXTENSIONS_AUTO_RELOAD && (env.NODE_ENV != "development") }

def mergeOptions (d : Options) (o : PartialOptions) : Options :=
  { schedule := o.schedule?.getD d.schedule
    watch := o.watch?.getD d.watch }

/-- The state of one `ExtensionManager` together with the process-global
pieces it drives (host event bus, cron task table, flow-manager operation
registry, chokidar watcher). -/
structure ManagerState where
  isLoaded : Bool
  options : Options
  extensions : List Extension
  hooks : List HookRecord
  endpoints : List String
  storages : List StorageRecord
  operations : List String
  appExtensions : List (String × String)
  endpointRouter : List (String × Nat)
  routerCounter : Nat
  emitter : EmitterState
  apiEmitterListeners : Nat
  tasks : List ScheduledTask
  nextTaskId : Nat
  flowOperations : List (String × Handler)
  watcher : Option (List String)
  watchersCreated : Nat
deriving Repr, DecidableEq

/-- The constructor's state (`new ExtensionManager()` plus fresh process
globals). -/
def freshManager (env : Env) : ManagerState :=
  { isLoaded := false
    options := defaultOptions env
    extensions := []
    hooks := []
    endpoints := []
    storages := []
    operations := []
    appExtensions := []
    endpointRouter := []
    routerCounter := 0
    emitter := emptyEmitter
    apiEmitterListeners := 0
    tasks := []
    nextTaskId := 0
    flowOperations := []
    watcher := none
    watchersCreated := 0 }

/-- `getExtensions` (src line 273): package extensions first, local
extensions second. -/
def getExtensions (env : Env) : List Extension :=
  env.packageExtensions ++ env.localExtensions

/-- `getExtensionsList(type?)` (src line 166). -/
def getExtensionsList (st : ManagerState) (type? : Option String) : List String :=
  match type? with
  | none => st.extensions.map (fun e => e.name)
  | some t => (st.extensions.filter (fun e => e.type == t)).map (fun e => e.name)

/-- The effect of one call against the hook registration API
(`registerFunctions` in `registerHook`, src lines 431-479): filter/action/
init bindings go onto the host-wide emitter and are recorded; `schedule`
first validates the cron expression, creating and recording a task only if
it is valid (otherwise only a warning is logged). -/
def applyRegCmd (env : Env) (st : ManagerState) (events : List EventHandler) :
    RegCmd → ManagerState × List EventHandler
  | RegCmd.filter ev h =>
      ({ st with emitter := { st.emitter with filters := st.emitter.filters ++ [(ev, h)] } },
        events ++ [EventHandler.filterEv ev h])
  | RegCmd.action ev h =>
      ({ st with emitter := { st.emitter with actions := st.emitter.actions ++ [(ev, h)] } },
        events ++ [EventHandler.actionEv ev h])
  | RegCmd.init ev h =>
      ({ st with emitter := { st.emitter with inits := st.emitter.inits ++ [(ev, h)] } },
        events ++ [EventHandler.initEv ev h])
  | RegCmd.schedule cron h =>
      if env.validCron cron then
        ({ st with
            tasks := st.tasks ++ [{ id := st.nextTaskId, cron := cron, handler := h }]
            nextTaskId := st.nextTaskId + 1 },
          events ++ [EventHandler.scheduleEv st.nextTaskId])
      else (st, events)

/-- `registerHook(register, path)` (src line 425): run the module's register
function; it performs its registration calls and may then throw. The hook
record is pushed only after the register function returns, so a throwing
register leaves its already-performed registrations in place while pushing
no record (the exception is caught by `registerHooks`). -/
def applyRegCmdP (env : Env) (p : ManagerState × List EventHandler) (c : RegCmd) :
    ManagerState × List EventHandler :=
  applyRegCmd env p.1 p.2 c

def registerHook (env : Env) (st : ManagerState) (register : HookConfig)
    (hookPath : String) : ManagerState :=
  let r := register.cmds.foldl (applyRegCmdP env) (st, [])
  if register.throws then r.1
  else { r.1 with hooks := r.1.hooks ++ [{ path := hookPath, events := r.2 }] }

/-- `registerHooks` (src line 339): per hook extension, resolve the
entrypoint, load the module (`none` = the require throws), normalize with
`getModuleDefault` and register; any failure is caught and logged, leaving
the other hooks unaffected. -/
def registerHooksStep (env : Env) (st : ManagerState) (hook : Extension) : ManagerState :=
  let hookPath := resolvePath hook.path hook.entrypoint.file
  match env.hookModules hookPath with
  | none => st
  | some m => registerHook env st (getModuleDefault m) hookPath

def registerHooks (env : Env) (st : ManagerState) : ManagerState :=
  (st.extensions.filter (fun e => e.type == "hook")).foldl (registerHooksStep env) st

/-- `registerEndpoint(config, path, name, router)` (src line 494): the mount
segment is the extension name for a bare handler function and the config's
id for an object; a fresh scoped sub-router (a fresh router id drawn from
`routerCounter`) is mounted at `/<segment>` on the shared endpoint router. -/
def registerEndpoint (st : ManagerState) (config : EndpointConfig)
    (path name : String) : ManagerState :=
  let routeName := match config with
    | EndpointConfig.handlerFn _ => name
    | EndpointConfig.obj i _ => i
  { st with
      endpointRouter := st.endpointRouter ++ [("/" ++ routeName, st.routerCounter)]
      routerCounter := st.routerCounter + 1
      endpoints := st.endpoints ++ [path] }

/-- `registerEndpoints` (src line 357). -/
def registerEndpointsStep (env : Env) (st : ManagerState) (endpoint : Extension) :
    ManagerState :=
  let endpointPath := resolvePath endpoint.path endpoint.entrypoint.file
  match env.endpointModules endpointPath with
  | none => st
  | some m => registerEndpoint st (getModuleDefault m) endpointPath endpoint.name

def registerEndpoints (env : Env) (st : ManagerState) : ManagerState :=
  (st.extensions.filter (fun e => e.type == "endpoint")).foldl
    (registerEndpointsStep env) st

/-- `registerStorages` (src line 375): the raw module export is stored as
the config — there is no `getModuleDefault` normalization on this path. -/
def registerStoragesStep (env : Env) (st : ManagerState) (storage : Extension) :
    ManagerState :=
  let storagePath := resolvePath storage.path storage.entrypoint.file
  match env.storageModules storagePath with
  | none => st
  | some m => { st with storages := st.storages ++ [{ path := storagePath, config := m }] }

def registerStorages (env : Env) (st : ManagerState) : ManagerState :=
  (st.extensions.filter (fun e => e.type == "storage")).foldl (registerStoragesStep env) st

/-- A source of one operation registration: either an internal operation
record built from a globby path, or a user-supplied operation extension. -/
structure OperationSource where
  name : String
  path : String
  api : String
deriving Repr, DecidableEq

/-- The internal operations (src lines 392-404): one per matched
`operations/*/index.(js|ts)` path; the name is the penultimate path
segment (the directory), the path is everything before the file name, the
api entrypoint is the file name. -/
def internalOperations (env : Env) : List OperationSource :=
  env.internalOperationPaths.map (fun internalPath =>
    let dirs := internalPath.splitOn "/"
    { name := dirs.getD (dirs.length - 2) ""
      path := String.intercalate "/" dirs.dropLast
      api := dirs.getLastD "" })

def operationSourceOfExt (e : Extension) : OperationSource :=
  { name := e.name, path := e.path, api := e.entrypoint.api }

/-- `registerOperation(config, path)` (src line 516): forwards
`(config.id, config.handler)` to the flow manager's operation registry and
records the path. -/
def registerOperation (st : ManagerState) (config : OperationApiConfig)
    (path : String) : ManagerState :=
  { st with
      flowOperations := st.flowOperations ++ [(config.id, config.handler)]
      operations := st.operations ++ [path] }

/-- `registerOperations` (src line 391): internal operations first, then the
user-supplied operation extensions, each loaded, normalized and registered
with per-item failure isolation. -/
def registerOperationsStep (env : Env) (st : ManagerState) (operation : OperationSource) :
    ManagerState :=
  let operationPath := resolvePath operation.path operation.api
  match env.operationModules operationPath with
  | none => st
  | some m => registerOperation st (getModuleDefault m) operationPath

def registerOperations (env : Env) (st : ManagerState) : ManagerState :=
  (internalOperations env ++
      (st.extensions.filter (fun e => e.type == "operation")).map operationSourceOfExt).foldl
    (registerOperationsStep env) st

/-- `generateExtensionBundles` (src line 286): one rollup compilation per
app extension type over the current extensions; a failed compilation
(`none`) is caught and logged, leaving that type's entry absent. -/
def generateBundlesStep (env : Env) (st : ManagerState)
    (bundles : List (String × String)) (extensionType : String) : List (String × String) :=
  match env.rollup extensionType st.extensions with
  | some code => bundles ++ [(extensionType, code)]
  | none => bundles

def generateExtensionBundles (env : Env) (st : ManagerState) : List (String × String) :=
  APP_EXTENSION_TYPES.foldl (generateBundlesStep env st) []

/-- `unregisterHooks`'s per-event teardown (src lines 528-543): filter/
action/init bindings are removed from the host emitter (first matching
binding), a schedule binding stops its task. -/
def eraseTask : List ScheduledTask → Nat → List ScheduledTask
  | [], _ => []
  | t :: ts, tid => if t.id = tid then ts else t :: eraseTask ts tid

def offEvent (st : ManagerState) : EventHandler → ManagerState
  | EventHandler.filterEv n h =>
      { st with emitter := { st.emitter with filters := st.emitter.filters.erase (n, h) } }
  | EventHandler.actionEv n h =>
      { st with emitter := { st.emitter with actions := st.emitter.actions.erase (n, h) } }
  | EventHandler.initEv n h =>
      { st with emitter := { st.emitter with inits := st.emitter.inits.erase (n, h) } }
  | EventHandler.scheduleEv tid =>
      { st with tasks := eraseTask st.tasks tid }

/-- `unregisterHooks` (src line 526). (`require.cache` eviction is not
modelled.) -/
def offEvents (st : ManagerState) (hook : HookRecord) : ManagerState :=
  hook.events.foldl offEvent st

def unregisterHooks (st : ManagerState) : ManagerState :=
  let st := st.hooks.foldl offEvents st
  { st with hooks := [] }

/-- `unregisterEndpoints` (src line 551): the shared router's stack is
cleared wholesale. -/
def unregisterEndpoints (st : ManagerState) : ManagerState :=
  { st with endpointRouter := [], endpoints := [] }

/-- `unregisterStorages` (src line 561). -/
def unregisterStorages (st : ManagerState) : ManagerState :=
  { st with storages := [] }

/-- `unregisterOperations` (src line 568): the flow manager's operation
registry is cleared at once. -/
def unregisterOperations (st : ManagerState) : ManagerState :=
  { st with flowOperations := [], operations := [] }

/-- `load` (src line 186): discovery inside try/catch — on a discovery
failure the caught error only logs and `this.extensions` keeps its previous
value; then the four registrars in fixed order; then bundling when the app
is served; finally the loaded flag is set. -/
def load (env : Env) (st : ManagerState) : ManagerState :=
  let st := if env.discoveryThrows then st else { st with extensions := getExtensions env }
  let st := registerHooks env st
  let st := registerEndpoints env st
  let st := registerStorages env st
  let st := registerOperations env st
  let st := if env.SERVE_APP then { st with appExtensions := generateExtensionBundles env st } else st
  { st with isLoaded := true }

/-- `unload` (src line 208): the four unregistrars, a wholesale reset of the
per-cycle api emitter, clearing the bundle map when the app is served, and
the loaded flag drops. `this.extensions` is not touched. -/
def unload (env : Env) (st : ManagerState) : ManagerState :=
  let st := unregisterHooks st
  let st := unregisterEndpoints st
  let st := unregisterStorages st
  let st := unregisterOperations st
  let st := { st with apiEmitterListeners := 0 }
  let st := if env.SERVE_APP then { st with appExtensions := [] } else st
  { st with isLoaded := false }

/-- The callback wired into a scheduled task (src lines 461-469): when the
task fires, the handler runs only while the scheduling option is enabled,
and an error it raises is caught and logged (`logger.error`), never
propagated — the tick always returns normally, so node-cron keeps firing
the task on schedule. -/
structure TickResult where
  invoked : Bool
  errorLogged : Bool
deriving Repr, DecidableEq

def runHandler (handlerThrows : Handler → Bool) (h : Handler) : Except String Unit :=
  if handlerThrows h then Except.error "handler error" else Except.ok ()

def taskTick (opts : Options) (handlerThrows : Handler → Bool) (t : ScheduledTask) :
    Except String TickResult :=
  if opts.schedule then
    match runHandler handlerThrows t.handler with
    | Except.ok _ => Except.ok { invoked := true, errorLogged := false }
    | Except.error _ => Except.ok { invoked := true, errorLogged := true }
  else Except.ok { invoked := false, errorLogged := false }

/-- `pluralize` from `@directus/shared/utils`. -/
def pluralize (s : String) : String := s ++ "s"

/-- `isHybridExtension(type)` from `@directus/shared/utils`. -/
def isHybridExtension (type : String) : Bool :=
  HYBRID_EXTENSION_TYPES.contains type

/-- The local extension glob patterns watched from the start
(`initializeWatcher`, src lines 227-236): per relevant type, two patterns
for hybrid types and one otherwise. -/
def localExtensionGlobs (env : Env) : List String :=
  (if env.SERVE_APP then EXTENSION_TYPES else API_EXTENSION_TYPES).flatMap
    (fun type =>
      let typeDir := resolvePath env.EXTENSIONS_PATH (pluralize type)
      if isHybridExtension type then
        [resolvePath typeDir "*/app.js", resolvePath typeDir "*/api.js"]
      else [resolvePath typeDir "*/index.js"])

/-- The initial chokidar watch set (src line 238): the host manifest plus
the local extension globs. -/
def initialWatchPaths (env : Env) : List String :=
  "package.json" :: localExtensionGlobs env

/-- `initializeWatcher` (src line 223): a watcher is created only when the
watch option is on and no watcher exists yet. `watchersCreated` counts the
`chokidar.watch` calls ever made. -/
def initializeWatcher (env : Env) (st : ManagerState) : ManagerState :=
  if st.options.watch && st.watcher.isNone then
    { st with watcher := some (initialWatchPaths env)
              watchersCreated := st.watchersCreated + 1 }
  else st

/-- `toPackageExtensionPaths` inside `updateWatchedExtensions` (src lines
251-263): non-local extensions only; a pack extension contributes its
manifest, a hybrid extension both entrypoints, any other extension its
single entrypoint. -/
def extensionWatchPaths (extension : Extension) : List String :=
  if extension.type == PACK_EXTENSION_TYPE then
    [resolvePath extension.path "package.json"]
  else if isExtensionObject extension HYBRID_EXTENSION_TYPES then
    [resolvePath extension.path extension.entrypoint.app,
      resolvePath extension.path extension.entrypoint.api]
  else [resolvePath extension.path extension.entrypoint.file]

def toPackageExtensionPaths (extensions : List Extension) : List String :=
  (extensions.filter (fun e => !e.isLocal)).flatMap extensionWatchPaths

/-- The effect of `watcher.add(addedPaths); watcher.unwatch(removedPaths)`
on the tracked path set. -/
def applyWatchUpdate (watched : List String) (added removed : List Extension) :
    List String :=
  let addedPackageExtensionPaths := toPackageExtensionPaths added
  let removedPackageExtensionPaths := toPackageExtensionPaths removed
  (watched ++ addedPackageExtensionPaths).filter
    (fun p => !removedPackageExtensionPaths.contains p)

/-- `updateWatchedExtensions(added, removed = [])` (src line 249): a no-op
without a watcher. -/
def updateWatchedExtensions (st : ManagerState) (added removed : List Extension) :
    ManagerState :=
  match st.watcher with
  | none => st
  | some watched => { st with watcher := some (applyWatchUpdate watched added removed) }

/-- The added set computed by `reload` (src line 143): extensions of the new
list whose path matches no previous extension's path. -/
def addedOf (prevExtensions extensions : List Extension) : List Extension :=
  extensions.filter
    (fun extension => !(prevExtensions.any (fun prevExtension => extension.path == prevExtension.path)))

/-- The removed set computed by `reload` (src line 146). -/
def removedOf (prevExtensions extensions : List Extension) : List Extension :=
  prevExtensions.filter
    (fun prevExtension => !(extensions.any (fun extension => prevExtension.path == extension.path)))

/-- The body of one enqueued reload job (src lines 135-159): when loaded,
snapshot the previous descriptors, unload then load, diff by path, and
apply the incremental watch-set update. -/
def reloadBody (env : Env) (st : ManagerState) : ManagerState :=
  if st.isLoaded then
    let prevExtensions := st.extensions
    let st := load env (unload env st)
    let added := addedOf prevExtensions st.extensions
    let removed := removedOf prevExtensions st.extensions
    updateWatchedExtensions st added removed
  else st

/-- `initialize(options)` (src line 113), named `initializeManager` here:
merge the options over the defaults, start the watcher if enabled, and when
not yet loaded run `load` and seed the watch set from the fresh extensions. -/
def initializeManager (env : Env) (o : PartialOptions) (st : ManagerState) :
    ManagerState :=
  let st := { st with options := mergeOptions (defaultOptions env) o }
  let st := initializeWatcher env st
  if !st.isLoaded then
    let st := load env st
    updateWatchedExtensions st st.extensions []
  else st

/-! Concrete environments used to exercise the model on explicit inputs. -/

/-- A minimal environment: nothing discoverable, no loadable modules. -/
def env0 : Env :=
  { SERVE_APP := false
    EXTENSIONS_AUTO_RELOAD := false
    NODE_ENV := "production"
    EXTENSIONS_PATH := "./extensions"
    discoveryThrows := false
    packageExtensions := []
    localExtensions := []
    hookModules := fun _ => none
    endpointModules := fun _ => none
    storageModules := fun _ => none
    operationModules := fun _ => none
    internalOperationPaths := []
    validCron := fun _ => false
    rollup := fun _ _ => none }

/-- A hook extension whose register function adds one filter binding and
then throws. -/
def leakyHookExt : Extension :=
  { name := "leaky", type := "hook", path := "pkg/leaky"
    entrypoint := Entrypoint.single "index.js", isLocal := false }

def envLeak : Env :=
  { env0 with
    packageExtensions := [leakyHookExt]
    hookModules := fun p =>
      if p = "pkg/leaky/index.js" then
        some (ModuleExport.bare { cmds := [RegCmd.filter "items.create" 0], throws := true })
      else none }

def goodHookExt : Extension :=
  { name := "good", type := "hook", path := "pkg/good"
    entrypoint := Entrypoint.single "index.js", isLocal := false }

def brokenHookExt : Extension :=
  { name := "broken", type := "hook", path := "pkg/broken"
    entrypoint := Entrypoint.single "index.js", isLocal := false }

def cronHookExt : Extension :=
  { name := "cron", type := "hook", path := "pkg/cron"
    entrypoint := Entrypoint.single "index.js", isLocal := false }

/-- Three discovered hook extensions: two register successfully (one of them
via a default-wrapped export, one scheduling a valid cron), one fails to
load. -/
def envHooks : Env :=
  { env0 with
    packageExtensions := [goodHookExt, brokenHookExt, cronHookExt]
    validCron := fun c => c = "* * * * *"
    hookModules := fun p =>
      if p = "pkg/good/index.js" then
        some (ModuleExport.bare
          { cmds := [RegCmd.filter "items.create" 1, RegCmd.action "items.create" 2]
            throws := false })
      else if p = "pkg/cron/index.js" then
        some (ModuleExport.wrapped
          { cmds := [RegCmd.init "app.start" 3, RegCmd.schedule "* * * * *" 4]
            throws := false })
      else none }

def simpleExt : Extension :=
  { name := "myext", type := "endpoint", path := "pkg/myext"
    entrypoint := Entrypoint.single "index.js", isLocal := false }

/-- Discovery finds one extension. -/
def envDisc : Env := { env0 with packageExtensions := [simpleExt] }

/-- Discovery throws (directory preparation or scanning fails). -/
def envDiscFail : Env := { env0 with discoveryThrows := true }

def storageExt : Extension :=
  { name := "mystorage", type := "storage", path := "pkg/storage"
    entrypoint := Entrypoint.single "index.js", isLocal := false }

def envStorageBare : Env :=
  { env0 with
    packageExtensions := [storageExt]
    storageModules := fun p =>
      if p = "pkg/storage/index.js" then some (ModuleExport.bare 7) else none }

def envStorageWrapped : Env :=
  { env0 with
    packageExtensions := [storageExt]
    storageModules := fun p =>
      if p = "pkg/storage/index.js" then some (ModuleExport.wrapped 7) else none }

/-- A package extension whose entrypoint file changes between cycles while
its path stays the same. -/
def extOldEntry : Extension :=
  { name := "pkgext", type := "hook", path := "pkg/watched"
    entrypoint := Entrypoint.single "old.js", isLocal := false }

def extNewEntry : Extension :=
  { name := "pkgext", type := "hook", path := "pkg/watched"
    entrypoint := Entrypoint.single "new.js", isLocal := false }

def extOther : Extension :=
  { name := "other", type := "endpoint", path := "pkg/other"
    entrypoint := Entrypoint.single "index.js", isLocal := false }

def alphaExt : Extension :=
  { name := "alpha", type := "endpoint", path := "pkg/alpha"
    entrypoint := Entrypoint.single "index.js", isLocal := false }

def betaExt : Extension :=
  { name := "beta", type := "endpoint", path := "pkg/beta"
    entrypoint := Entrypoint.single "index.js", isLocal := false }

/-- Endpoint modules for `alphaExt` and `betaExt`, both bare handler
functions (one exported bare, one wrapped). -/
def envAB : Env :=
  { env0 with
    endpointModules := fun p =>
      if p = "pkg/alpha/index.js" then some (ModuleExport.bare (EndpointConfig.handlerFn 10))
      else if p = "pkg/beta/index.js" then some (ModuleExport.wrapped (EndpointConfig.handlerFn 11))
      else none }

def stAB : ManagerState := { freshManager env0 with extensions := [alphaExt, betaExt] }

def stBA : ManagerState := { freshManager env0 with extensions := [betaExt, alphaExt] }

/-- Development-mode environment with the auto-reload flag set. -/
def envDev : Env :=
  { env0 with NODE_ENV := "development", EXTENSIONS_AUTO_RELOAD := true }

/-! Derived notions used to state the properties. -/

/-- Erase each key in order (the emitter's `off*` teardown loop applied to a
list of recorded bindings). -/
def eraseList {α : Type} [BEq α] (l keys : List α) : List α :=
  keys.foldl (fun acc k => acc.erase k) l

/-- Stop each recorded task in order. -/
def eraseTasks (ts : List ScheduledTask) (ids : List Nat) : List ScheduledTask :=
  ids.foldl eraseTask ts

def eventFilterKey : EventHandler → Option (String × Handler)
  | EventHandler.filterEv n h => some (n, h)
  | _ => none

def eventActionKey : EventHandler → Option (String × Handler)
  | EventHandler.actionEv n h => some (n, h)
  | _ => none

def eventInitKey : EventHandler → Option (String × Handler)
  | EventHandler.initEv n h => some (n, h)
  | _ => none

def eventTaskId : EventHandler → Option Nat
  | EventHandler.scheduleEv t => some t
  | _ => none

def evFilters (evs : List EventHandler) : List (String × Handler) :=
  evs.filterMap eventFilterKey

def evActions (evs : List EventHandler) : List (String × Handler) :=
  evs.filterMap eventActionKey

def evInits (evs : List EventHandler) : List (String × Handler) :=
  evs.filterMap eventInitKey

def evTaskIds (evs : List EventHandler) : List Nat :=
  evs.filterMap eventTaskId

/-- All filter bindings recorded across a list of hook records, in order. -/
def recFilters (hooks : List HookRecord) : List (String × Handler) :=
  hooks.flatMap (fun r => evFilters r.events)

def recActions (hooks : List HookRecord) : List (String × Handler) :=
  hooks.flatMap (fun r => evActions r.events)

def recInits (hooks : List HookRecord) : List (String × Handler) :=
  hooks.flatMap (fun r => evInits r.events)

def recTaskIds (hooks : List HookRecord) : List Nat :=
  hooks.flatMap (fun r => evTaskIds r.events)

/-- The resolved entrypoint of an api extension. -/
def hookPathOf (e : Extension) : String := resolvePath e.path e.entrypoint.file

/-- The resolved paths of the hook extensions whose module loads
successfully, in discovery order. -/
def successHookPaths (env : Env) (l : List Extension) : List String :=
  l.filterMap (fun e => (env.hookModules (hookPathOf e)).map (fun _ => hookPathOf e))

/-- The mount segment choice of `registerEndpoint`: the extension name for a
bare handler function, the config's id for an object. -/
def routeNameOf (config : EndpointConfig) (name : String) : String :=
  match config with
  | EndpointConfig.handlerFn _ => name
  | EndpointConfig.obj i _ => i

/-- The (extension name, normalized config) pairs of the endpoint
extensions whose module loads successfully, in order. -/
def endpointRegs (env : Env) (l : List Extension) : List (String × EndpointConfig) :=
  l.filterMap (fun e =>
    (env.endpointModules (resolvePath e.path e.entrypoint.file)).map
      (fun m => (e.name, getModuleDefault m)))

/-- The (id, handler) pairs forwarded to the flow manager for the operation
sources whose module loads successfully, in order. -/
def opRegs (env : Env) (srcs : List OperationSource) : List (String × Handler) :=
  srcs.filterMap (fun op =>
    (env.operationModules (resolvePath op.path op.api)).map
      (fun m => ((getModuleDefault m).id, (getModuleDefault m).handler)))

/-- Fields untouched by the registrars and unregistrars: the discovered
descriptor list, the watcher and its creation count, the options and the
loaded flag. -/
def FramePres (a b : ManagerState) : Prop :=
  a.extensions = b.extensions ∧ a.watcher = b.watcher ∧
    a.watchersCreated = b.watchersCreated ∧ a.options = b.options ∧
    a.isLoaded = b.isLoaded

/-- Fields of the hook machinery untouched by the other registrars: the
host emitter, the task table and the hooks registry. -/
def HookStatePres (a b : ManagerState) : Prop :=
  a.emitter = b.emitter ∧ a.tasks = b.tasks ∧ a.hooks = b.hooks

/-! Further concrete inputs for exercising the normalization contract. -/

def hookCfgW : HookConfig :=
  { cmds := [RegCmd.filter "items.create" 1], throws := false }

def hookModsBare : String → Option (ModuleExport HookConfig) := fun p =>
  if p = "pkg/good/index.js" then some (ModuleExport.bare hookCfgW) else none

def hookModsWrapped : String → Option (ModuleExport HookConfig) := fun p =>
  if p = "pkg/good/index.js" then some (ModuleExport.wrapped hookCfgW) else none

def endpModsBare : String → Option (ModuleExport EndpointConfig) := fun p =>
  if p = "pkg/alpha/index.js" then some (ModuleExport.bare (EndpointConfig.handlerFn 10))
  else none

def endpModsWrapped : String → Option (ModuleExport EndpointConfig) := fun p =>
  if p = "pkg/alpha/index.js" then some (ModuleExport.wrapped (EndpointConfig.handlerFn 10))
  else none

def opExt : Extension :=
  { name := "op", type := "operation", path := "pkg/op"
    entrypoint := Entrypoint.hybrid "app.js" "api.js", isLocal := false }

def opModsBare : String → Option (ModuleExport OperationApiConfig) := fun p =>
  if p = "pkg/op/api.js" then some (ModuleExport.bare { id := "log", handler := 20 })
  else none

def opModsWrapped : String → Option (ModuleExport OperationApiConfig) := fun p =>
  if p = "pkg/op/api.js" then some (ModuleExport.wrapped { id := "log", handler := 20 })
  else none

def stC4 : ManagerState :=
  { freshManager env0 with extensions := [goodHookExt, alphaExt, opExt] }

/-- Previous / current descriptor lists for the watch-set witness: one
retained extension, one newly added. -/
def watchS1 : List Extension := [extOldEntry]

def watchS2 : List Extension := [extOldEntry, extOther]

/-! Frame lemmas: which fields each operation leaves untouched. -/

theorem framePres_refl (a : ManagerState) : FramePres a a :=
  ⟨rfl, rfl, rfl, rfl, rfl⟩

theorem framePres_trans {a b c : ManagerState} (h1 : FramePres a b) (h2 : FramePres b c) :
    FramePres a c := by
  obtain ⟨e1, w1, c1, o1, l1⟩ := h1
  obtain ⟨e2, w2, c2, o2, l2⟩ := h2
  exact ⟨e1.trans e2, w1.trans w2, c1.trans c2, o1.trans o2, l1.trans l2⟩

theorem foldl_framePres {β : Type} (f : ManagerState → β → ManagerState)
    (hf : ∀ s x, FramePres (f s x) s) :
    ∀ (l : List β) (st : ManagerState), FramePres (l.foldl f st) st := by
  intro l
  induction l with
  | nil => intro st; exact framePres_refl st
  | cons x l ih =>
      intro st
      exact framePres_trans (ih (f st x)) (hf st x)

theorem applyRegCmd_framePres (env : Env) (st : ManagerState) (ev : List EventHandler)
    (c : RegCmd) : FramePres (applyRegCmd env st ev c).1 st := by
  cases c with
  | filter n h => exact ⟨rfl, rfl, rfl, rfl, rfl⟩
  | action n h => exact ⟨rfl, rfl, rfl, rfl, rfl⟩
  | init n h => exact ⟨rfl, rfl, rfl, rfl, rfl⟩
  | schedule cron h =>
      simp only [applyRegCmd]
      split
      · exact ⟨rfl, rfl, rfl, rfl, rfl⟩
      · exact ⟨rfl, rfl, rfl, rfl, rfl⟩

theorem regCmds_framePres (env : Env) (cmds : List RegCmd) :
    ∀ (st : ManagerState) (ev : List EventHandler),
      FramePres (cmds.foldl (applyRegCmdP env) (st, ev)).1 st := by
  induction cmds with
  | nil => intro st ev; exact framePres_refl st
  | cons c cmds ih =>
      intro st ev
      have h1 := applyRegCmd_framePres env st ev c
      have h2 := ih (applyRegCmd env st ev c).1 (applyRegCmd env st ev c).2
      simp only [List.foldl_cons, applyRegCmdP] at h2 ⊢
      exact framePres_trans h2 h1

theorem registerHook_framePres (env : Env) (st : ManagerState) (register : HookConfig)
    (hookPath : String) : FramePres (registerHook env st register hookPath) st := by
  unfold registerHook
  have h := regCmds_framePres env register.cmds st []
  split
  · exact h
  · exact framePres_trans ⟨rfl, rfl, rfl, rfl, rfl⟩ h

theorem registerHooksStep_framePres (env : Env) (st : ManagerState) (hook : Extension) :
    FramePres (registerHooksStep env st hook) st := by
  simp only [registerHooksStep]
  split
  · exact framePres_refl st
  · exact registerHook_framePres env st _ _

theorem registerHooks_framePres (env : Env) (st : ManagerState) :
    FramePres (registerHooks env st) st :=
  foldl_framePres (registerHooksStep env) (registerHooksStep_framePres env) _ st

theorem registerEndpointsStep_framePres (env : Env) (st : ManagerState) (e : Extension) :
    FramePres (registerEndpointsStep env st e) st := by
  simp only [registerEndpointsStep]
  split
  · exact framePres_refl st
  · exact ⟨rfl, rfl, rfl, rfl, rfl⟩

theorem registerEndpoints_framePres (env : Env) (st : ManagerState) :
    FramePres (registerEndpoints env st) st :=
  foldl_framePres (registerEndpointsStep env) (registerEndpointsStep_framePres env) _ st

theorem registerStoragesStep_framePres (env : Env) (st : ManagerState) (e : Extension) :
    FramePres (registerStoragesStep env st e) st := by
  simp only [registerStoragesStep]
  split
  · exact framePres_refl st
  · exact ⟨rfl, rfl, rfl, rfl, rfl⟩

theorem registerStorages_framePres (env : Env) (st : ManagerState) :
    FramePres (registerStorages env st) st :=
  foldl_framePres (registerStoragesStep env) (registerStoragesStep_framePres env) _ st

theorem registerOperationsStep_framePres (env : Env) (st : ManagerState)
    (op : OperationSource) : FramePres (registerOperationsStep env st op) st := by
  simp only [registerOperationsStep]
  split
  · exact framePres_refl st
  · exact ⟨rfl, rfl, rfl, rfl, rfl⟩

theorem registerOperations_framePres (env : Env) (st : ManagerState) :
    FramePres (registerOperations env st) st :=
  foldl_framePres (registerOperationsStep env) (registerOperationsStep_framePres env) _ st

theorem offEvent_framePres (st : ManagerState) (ev : EventHandler) :
    FramePres (offEvent st ev) st := by
  cases ev <;> exact ⟨rfl, rfl, rfl, rfl, rfl⟩

theorem offEvents_framePres (st : ManagerState) (hook : HookRecord) :
    FramePres (offEvents st hook) st :=
  foldl_framePres offEvent offEvent_framePres hook.events st

theorem unregisterHooks_framePres (st : ManagerState) :
    (unregisterHooks st).extensions = st.extensions ∧
      (unregisterHooks st).watcher = st.watcher ∧
      (unregisterHooks st).watchersCreated = st.watchersCreated ∧
      (unregisterHooks st).options = st.options ∧
      (unregisterHooks st).isLoaded = st.isLoaded ∧
      (unregisterHooks st).hooks = [] := by
  unfold unregisterHooks
  have h := foldl_framePres offEvents offEvents_framePres st.hooks st
  obtain ⟨e, w, c, o, l⟩ := h
  exact ⟨e, w, c, o, l, rfl⟩

theorem hookStatePres_refl (a : ManagerState) : HookStatePres a a := ⟨rfl, rfl, rfl⟩

theorem hookStatePres_trans {a b c : ManagerState} (h1 : HookStatePres a b)
    (h2 : HookStatePres b c) : HookStatePres a c := by
  obtain ⟨e1, t1, h1'⟩ := h1
  obtain ⟨e2, t2, h2'⟩ := h2
  exact ⟨e1.trans e2, t1.trans t2, h1'.trans h2'⟩

theorem foldl_hookStatePres {β : Type} (f : ManagerState → β → ManagerState)
    (hf : ∀ s x, HookStatePres (f s x) s) :
    ∀ (l : List β) (st : ManagerState), HookStatePres (l.foldl f st) st := by
  intro l
  induction l with
  | nil => intro st; exact hookStatePres_refl st
  | cons x l ih =>
      intro st
      exact hookStatePres_trans (ih (f st x)) (hf st x)

theorem registerEndpoints_hookStatePres (env : Env) (st : ManagerState) :
    HookStatePres (registerEndpoints env st) st := by
  refine foldl_hookStatePres (registerEndpointsStep env) (fun s e => ?_) _ st
  simp only [registerEndpointsStep]
  split
  · exact hookStatePres_refl s
  · exact ⟨rfl, rfl, rfl⟩

theorem registerStorages_hookStatePres (env : Env) (st : ManagerState) :
    HookStatePres (registerStorages env st) st := by
  refine foldl_hookStatePres (registerStoragesStep env) (fun s e => ?_) _ st
  simp only [registerStoragesStep]
  split
  · exact hookStatePres_refl s
  · exact ⟨rfl, rfl, rfl⟩

theorem registerOperations_hookStatePres (env : Env) (st : ManagerState) :
    HookStatePres (registerOperations env st) st := by
  refine foldl_hookStatePres (registerOperationsStep env) (fun s e => ?_) _ st
  simp only [registerOperationsStep]
  split
  · exact hookStatePres_refl s
  · exact ⟨rfl, rfl, rfl⟩

/-- What `load` does to the descriptor list and to the fields it never
touches (watcher, creation count, options), plus the loaded flag. -/
theorem load_spec (env : Env) (st : ManagerState) :
    (load env st).extensions
        = (if env.discoveryThrows then st.extensions else getExtensions env) ∧
      (load env st).watcher = st.watcher ∧
      (load env st).watchersCreated = st.watchersCreated ∧
      (load env st).options = st.options ∧
      (load env st).isLoaded = true := by
  unfold load
  split
  case isTrue hthrows =>
    have h1 := registerHooks_framePres env st
    have h2 := registerEndpoints_framePres env (registerHooks env st)
    have h3 := registerStorages_framePres env (registerEndpoints env (registerHooks env st))
    have h4 := registerOperations_framePres env
      (registerStorages env (registerEndpoints env (registerHooks env st)))
    have h := framePres_trans h4 (framePres_trans h3 (framePres_trans h2 h1))
    obtain ⟨e, w, c, o, _⟩ := h
    split <;> exact ⟨by simp [e], by simp [w], by simp [c], by simp [o], rfl⟩
  case isFalse hthrows =>
    have h1 := registerHooks_framePres env { st with extensions := getExtensions env }
    have h2 := registerEndpoints_framePres env
      (registerHooks env { st with extensions := getExtensions env })
    have h3 := registerStorages_framePres env
      (registerEndpoints env (registerHooks env { st with extensions := getExtensions env }))
    have h4 := registerOperations_framePres env
      (registerStorages env (registerEndpoints env
        (registerHooks env { st with extensions := getExtensions env })))
    have h := framePres_trans h4 (framePres_trans h3 (framePres_trans h2 h1))
    obtain ⟨e, w, c, o, _⟩ := h
    split <;> exact ⟨by simp [e], by simp [w], by simp [c], by simp [o], rfl⟩

/-- What `unload` does to every field except the emitter and the task
table: registries are cleared wholesale, the descriptor list is retained. -/
theorem unload_spec (env : Env) (st : ManagerState) :
    (unload env st).extensions = st.extensions ∧
      (unload env st).watcher = st.watcher ∧
      (unload env st).watchersCreated = st.watchersCreated ∧
      (unload env st).options = st.options ∧
      (unload env st).isLoaded = false ∧
      (unload env st).hooks = [] ∧
      (unload env st).endpoints = [] ∧
      (unload env st).storages = [] ∧
      (unload env st).operations = [] ∧
      (unload env st).flowOperations = [] ∧
      (unload env st).endpointRouter = [] := by
  unfold unload unregisterEndpoints unregisterStorages unregisterOperations
  obtain ⟨e, w, c, o, _, hh⟩ := unregisterHooks_framePres st
  split <;>
    exact ⟨by simp [e], by simp [w], by simp [c], by simp [o], rfl, by simp [hh],
      rfl, rfl, rfl, rfl, rfl⟩

theorem updateWatched_pres (st : ManagerState) (added removed : List Extension) :
    (updateWatchedExtensions st added removed).watchersCreated = st.watchersCreated ∧
      (updateWatchedExtensions st added removed).watcher.isSome = st.watcher.isSome ∧
      (updateWatchedExtensions st added removed).extensions = st.extensions := by
  unfold updateWatchedExtensions
  cases h : st.watcher <;> simp [h]

/-- `initialize` written out with its let-bindings expanded. -/
theorem initializeManager_def (env : Env) (o : PartialOptions) (st : ManagerState) :
    initializeManager env o st =
      if !(initializeWatcher env
          { st with options := mergeOptions (defaultOptions env) o }).isLoaded then
        updateWatchedExtensions
          (load env (initializeWatcher env
            { st with options := mergeOptions (defaultOptions env) o }))
          (load env (initializeWatcher env
            { st with options := mergeOptions (defaultOptions env) o })).extensions []
      else initializeWatcher env { st with options := mergeOptions (defaultOptions env) o } :=
  rfl

theorem initializeWatcher_off (env : Env) (s : ManagerState)
    (h : s.options.watch = false) : initializeWatcher env s = s := by
  simp [initializeWatcher, h]

theorem initializeWatcher_watcherInv (env : Env) (s : ManagerState)
    (h : s.watchersCreated = if s.watcher.isSome then 1 else 0) :
    (initializeWatcher env s).watchersCreated
      = if (initializeWatcher env s).watcher.isSome then 1 else 0 := by
  unfold initializeWatcher
  split
  case isTrue hc =>
    have hso : s.watcher.isSome = false := by
      cases hw : s.watcher
      · rfl
      · rw [hw] at hc; simp at hc
    simp [hso] at h
    simp [h]
  case isFalse => exact h

theorem initTail_watcherInv (env : Env) (s1 : ManagerState)
    (h1 : s1.watchersCreated = if s1.watcher.isSome then 1 else 0) :
    (if !s1.isLoaded then
        updateWatchedExtensions (load env s1) (load env s1).extensions []
      else s1).watchersCreated
      = if (if !s1.isLoaded then
            updateWatchedExtensions (load env s1) (load env s1).extensions []
          else s1).watcher.isSome then 1 else 0 := by
  split
  · obtain ⟨_, hw, hc, _, _⟩ := load_spec env s1
    obtain ⟨hc2, hw2, _⟩ := updateWatched_pres (load env s1) (load env s1).extensions []
    rw [hc2, hw2, hc, hw]
    exact h1
  · exact h1

theorem initializeManager_watcherInv (env : Env) (o : PartialOptions) (st : ManagerState)
    (h : st.watchersCreated = if st.watcher.isSome then 1 else 0) :
    (initializeManager env o st).watchersCreated
      = if (initializeManager env o st).watcher.isSome then 1 else 0 := by
  rw [initializeManager_def]
  exact initTail_watcherInv env _ (initializeWatcher_watcherInv env _ h)

theorem initsFold_watcherInv (env2 : Env) (inits : List PartialOptions) :
    ∀ s : ManagerState, s.watchersCreated = (if s.watcher.isSome then 1 else 0) →
      (inits.foldl (fun s o => initializeManager env2 o s) s).watchersCreated
        = if (inits.foldl (fun s o => initializeManager env2 o s) s).watcher.isSome
            then 1 else 0 := by
  induction inits with
  | nil => intro s h; exact h
  | cons o inits ih =>
      intro s h
      exact ih (initializeManager env2 o s) (initializeManager_watcherInv env2 o s h)

/-- Claim C10: with default runtime options, filesystem watching is enabled
only when the auto-reload environment flag is set and the run mode is not
development; under defaults no watcher is ever started in development mode,
and any sequence of `initialize` calls creates at most one watcher
process-wide. -/
theorem watcher_defaults_and_uniqueness (env env2 : Env) (st : ManagerState)
    (inits : List PartialOptions) (hdev : env.NODE_ENV = "development") :
    (defaultOptions env).watch = false ∧
      (initializeManager env ⟨none, none⟩ st).watchersCreated = st.watchersCreated ∧
      (initializeManager env ⟨none, none⟩ st).watcher.isSome = st.watcher.isSome ∧
      (inits.foldl (fun s o => initializeManager env2 o s) (freshManager env2)).watchersCreated
        ≤ 1 := by
  have hwatch : (defaultOptions env).watch = false := by
    simp [defaultOptions, hdev]
  have hnw : initializeWatcher env { st with options := mergeOptions (defaultOptions env) ⟨none, none⟩ }
      = { st with options := mergeOptions (defaultOptions env) ⟨none, none⟩ } :=
    initializeWatcher_off env _ hwatch
  refine ⟨hwatch, ?_, ?_, ?_⟩
  · rw [initializeManager_def, hnw]
    split
    · obtain ⟨_, hw, hc, _, _⟩ := load_spec env
        { st with options := mergeOptions (defaultOptions env) ⟨none, none⟩ }
      obtain ⟨hc2, _, _⟩ := updateWatched_pres
        (load env { st with options := mergeOptions (defaultOptions env) ⟨none, none⟩ }) _ []
      rw [hc2, hc]
    · rfl
  · rw [initializeManager_def, hnw]
    split
    · obtain ⟨_, hw, hc, _, _⟩ := load_spec env
        { st with options := mergeOptions (defaultOptions env) ⟨none, none⟩ }
      obtain ⟨_, hw2, _⟩ := updateWatched_pres
        (load env { st with options := mergeOptions (defaultOptions env) ⟨none, none⟩ }) _ []
      rw [hw2, hw]
    · rfl
  · have h := initsFold_watcherInv env2 inits (freshManager env2) (by rfl)
    rw [h]
    split <;> omega

/-- Witness for C10 at a concrete development-mode environment and a
two-element initialization sequence. -/
theorem watcher_defaults_and_uniqueness_witness :
    envDev.NODE_ENV = "development" ∧
      (defaultOptions envDev).watch = false ∧
      (initializeManager envDev ⟨none, none⟩ (freshManager envDev)).watchersCreated
        = (freshManager envDev).watchersCreated ∧
      ([⟨none, none⟩, ⟨some true, some true⟩].foldl
        (fun s o => initializeManager env0 o s) (freshManager env0)).watchersCreated ≤ 1 := by
  have h := watcher_defaults_and_uniqueness envDev env0 (freshManager envDev)
    [⟨none, none⟩, ⟨some true, some true⟩] rfl
  exact ⟨rfl, h.1, h.2.1, h.2.2.2⟩

/-- Claim C2 (amended): when discovery fails during `load()`, the load still
completes, but the descriptor set does not become empty in general — it is
left unchanged from the previous cycle. It is empty only when the previous
list was empty (in particular on an initial load from the constructor
state); on a reload the previous cycle's descriptors are retained. -/
theorem load_discovery_failure_keeps_previous (env env2 : Env) (st : ManagerState)
    (hthrows : env.discoveryThrows = true) :
    (load env st).extensions = st.extensions ∧
      (load env st).isLoaded = true ∧
      (load env (freshManager env2)).extensions = [] := by
  obtain ⟨he, _, _, _, hl⟩ := load_spec env st
  obtain ⟨he2, _, _, _, _⟩ := load_spec env (freshManager env2)
  rw [hthrows] at he he2
  simp only [if_true] at he he2
  exact ⟨he, hl, he2⟩

/-- Witness for C2 (amended) on a reload whose discovery fails: the
previous cycle's descriptor is retained. -/
theorem load_discovery_failure_keeps_previous_witness :
    envDiscFail.discoveryThrows = true ∧
      (load envDiscFail (load envDisc (freshManager envDisc))).extensions
        = (load envDisc (freshManager envDisc)).extensions ∧
      (load envDiscFail (freshManager env0)).extensions = [] := by
  have h := load_discovery_failure_keeps_previous envDiscFail env0
    (load envDisc (freshManager envDisc)) rfl
  exact ⟨rfl, h.1, h.2.2⟩

/-- Counterexample to C2 as stated: on a reload cycle whose discovery
throws, the descriptor set is the previous cycle's list, not the empty
set. -/
theorem load_discovery_failure_cx :
    (reloadBody envDiscFail (load envDisc (freshManager envDisc))).extensions = [simpleExt] ∧
      ([simpleExt] : List Extension) ≠ [] := by
  constructor
  · rfl
  · decide

/-- Claim C3 (amended): `unload()` clears the four API registries, the flow
registry and the shared router stack and marks the manager unloaded, but it
does not discard the extension descriptor list: the names accessor keeps
returning the previous cycle's names until the next successful discovery
overwrites them. -/
theorem unload_retains_descriptors (env : Env) (st : ManagerState) :
    (unload env st).extensions = st.extensions ∧
      getExtensionsList (unload env st) none = getExtensionsList st none ∧
      (unload env st).hooks = [] ∧
      (unload env st).endpoints = [] ∧
      (unload env st).storages = [] ∧
      (unload env st).operations = [] ∧
      (unload env st).flowOperations = [] ∧
      (unload env st).endpointRouter = [] ∧
      (unload env st).isLoaded = false := by
  obtain ⟨he, _, _, _, hl, hh, hep, hs, ho, hf, hr⟩ := unload_spec env st
  exact ⟨he, by simp [getExtensionsList, he], hh, hep, hs, ho, hf, hr, hl⟩

/-- Counterexample to C3 as stated: after `unload()` the extension-names
accessor still returns the previous cycle's name, not an empty list. -/
theorem unload_retains_descriptors_cx :
    getExtensionsList (unload envDisc (load envDisc (freshManager envDisc))) none
        = ["myext"] ∧
      (["myext"] : List String) ≠ [] := by
  constructor
  · rfl
  · decide

theorem generateBundles_filterMap (env : Env) (st : ManagerState) :
    ∀ (L : List String) (acc : List (String × String)),
      L.foldl (generateBundlesStep env st) acc
        = acc ++ L.filterMap (fun t => (env.rollup t st.extensions).map (fun c => (t, c))) := by
  intro L
  induction L with
  | nil => intro acc; simp
  | cons a L ih =>
      intro acc
      cases h : env.rollup a st.extensions with
      | none => simp [generateBundlesStep, h, ih]
      | some c => simp [generateBundlesStep, h, ih]

theorem lookup_rollup_none (g : String → Option String) (t : String) :
    ∀ L : List String, t ∉ L →
      (L.filterMap (fun u => (g u).map (fun c => (u, c)))).lookup t = none := by
  intro L
  induction L with
  | nil => intro _; rfl
  | cons a L ih =>
      intro ht
      have hta : t ≠ a := fun he => ht (he ▸ List.mem_cons_self a L)
      have htL : t ∉ L := fun hm => ht (List.mem_cons_of_mem a hm)
      cases h : g a with
      | none =>
          simp only [List.filterMap_cons, h, Option.map_none']
          exact ih htL
      | some c =>
          simp only [List.filterMap_cons, h, Option.map_some']
          cases hb : t == a with
          | true => exact absurd (by simpa using hb) hta
          | false =>
              simp only [List.lookup, hb]
              exact ih htL

theorem lookup_filterMap_rollup (g : String → Option String) (t c : String) :
    ∀ L : List String, L.Nodup →
      ((L.filterMap (fun u => (g u).map (fun cc => (u, cc)))).lookup t = some c
        ↔ t ∈ L ∧ g t = some c) := by
  intro L
  induction L with
  | nil => intro _; simp [List.lookup]
  | cons a L ih =>
      intro hnd
      obtain ⟨hna, hndL⟩ := List.nodup_cons.mp hnd
      by_cases hta : t = a
      · subst hta
        cases h : g t with
        | none =>
            simp only [List.filterMap_cons, h, Option.map_none']
            rw [lookup_rollup_none g t L hna]
            simp [h]
        | some c0 =>
            simp only [List.filterMap_cons, h, Option.map_some', List.lookup,
              beq_self_eq_true]
            simp [h]
      · have hbt : (t == a) = false := by
          simpa using hta
        cases h : g a with
        | none =>
            simp only [List.filterMap_cons, h, Option.map_none']
            rw [ih hndL]
            simp [List.mem_cons, hta]
        | some c0 =>
            simp only [List.filterMap_cons, h, Option.map_some', List.lookup, hbt]
            rw [ih hndL]
            simp [List.mem_cons, hta]

/-- Claim C9: bundling is per-type isolated — after
`generateExtensionBundles`, the bundle map holds a source string for
exactly the app extension types whose compilation succeeded, and no entry
for a failing type. -/
theorem bundle_per_type_isolation (env : Env) (st : ManagerState) (t c : String) :
    (generateExtensionBundles env st).lookup t = some c
      ↔ t ∈ APP_EXTENSION_TYPES ∧ env.rollup t st.extensions = some c := by
  rw [generateExtensionBundles, generateBundles_filterMap]
  simpa using
    lookup_filterMap_rollup (fun u => env.rollup u st.extensions) t c
      APP_EXTENSION_TYPES (by decide)

/-- Claim C6: `schedule(cron, handler)` validates the cron expression first
— an invalid expression registers nothing (no task created, no event
recorded); a valid one creates and records exactly one task; when the task
fires, the handler runs only while the scheduling option is enabled, an
error it raises is caught and logged and never propagated (the tick always
returns normally, so the task keeps firing on schedule). -/
theorem schedule_validation_and_tick (env : Env) (st : ManagerState)
    (ev : List EventHandler) (cron : String) (h : Handler) (opts : Options)
    (handlerThrows : Handler → Bool) (t : ScheduledTask) :
    (env.validCron cron = false →
      applyRegCmd env st ev (RegCmd.schedule cron h) = (st, ev)) ∧
      (env.validCron cron = true →
        applyRegCmd env st ev (RegCmd.schedule cron h)
          = ({ st with
                tasks := st.tasks ++ [{ id := st.nextTaskId, cron := cron, handler := h }]
                nextTaskId := st.nextTaskId + 1 },
              ev ++ [EventHandler.scheduleEv st.nextTaskId])) ∧
      taskTick opts handlerThrows t
        = Except.ok { invoked := opts.schedule
                      errorLogged := opts.schedule && handlerThrows t.handler } := by
  refine ⟨?_, ?_, ?_⟩
  · intro hv; simp [applyRegCmd, hv]
  · intro hv; simp [applyRegCmd, hv]
  · unfold taskTick runHandler
    by_cases hs : opts.schedule <;> by_cases ht : handlerThrows t.handler <;>
      simp [hs, ht]

/-- Witness for C6: "not-a-cron" registers nothing; "* * * * *" creates a
task; with the scheduling option off a firing never invokes the handler,
and a throwing handler is logged, not propagated. -/
theorem schedule_validation_and_tick_witness :
    envHooks.validCron "not-a-cron" = false ∧
      applyRegCmd envHooks (freshManager env0) [] (RegCmd.schedule "not-a-cron" 9)
        = (freshManager env0, []) ∧
      envHooks.validCron "* * * * *" = true ∧
      (applyRegCmd envHooks (freshManager env0) [] (RegCmd.schedule "* * * * *" 9)).1.tasks
        = [{ id := 0, cron := "* * * * *", handler := 9 }] ∧
      taskTick { schedule := false, watch := false } (fun _ => true)
          { id := 0, cron := "* * * * *", handler := 9 }
        = Except.ok { invoked := false, errorLogged := false } ∧
      taskTick { schedule := true, watch := false } (fun _ => true)
          { id := 0, cron := "* * * * *", handler := 9 }
        = Except.ok { invoked := true, errorLogged := true } := by
  refine ⟨by decide, ?_, by decide, ?_, ?_, ?_⟩
  · exact (schedule_validation_and_tick envHooks (freshManager env0) [] "not-a-cron" 9
      { schedule := false, watch := false } (fun _ => true)
      { id := 0, cron := "* * * * *", handler := 9 }).1 (by decide)
  · rw [(schedule_validation_and_tick envHooks (freshManager env0) [] "* * * * *" 9
      { schedule := false, watch := false } (fun _ => true)
      { id := 0, cron := "* * * * *", handler := 9 }).2.1 (by decide)]
    rfl
  · exact (schedule_validation_and_tick envHooks (freshManager env0) [] "* * * * *" 9
      { schedule := false, watch := false } (fun _ => true)
      { id := 0, cron := "* * * * *", handler := 9 }).2.2
  · exact (schedule_validation_and_tick envHooks (freshManager env0) [] "* * * * *" 9
      { schedule := true, watch := false } (fun _ => true)
      { id := 0, cron := "* * * * *", handler := 9 }).2.2

theorem registerEndpoint_eq (st : ManagerState) (config : EndpointConfig)
    (path name : String) :
    registerEndpoint st config path name
      = { st with
          endpointRouter := st.endpointRouter
            ++ [("/" ++ routeNameOf config name, st.routerCounter)]
          routerCounter := st.routerCounter + 1
          endpoints := st.endpoints ++ [path] } := by
  cases config <;> rfl

theorem range'_cons (s n : Nat) : List.range' s (n + 1) = s :: List.range' (s + 1) n := rfl

theorem endpointFold_spec (env : Env) :
    ∀ (l : List Extension) (st : ManagerState),
      (l.foldl (registerEndpointsStep env) st).endpointRouter.map Prod.fst
          = st.endpointRouter.map Prod.fst
            ++ (endpointRegs env l).map (fun pc => "/" ++ routeNameOf pc.2 pc.1) ∧
        (l.foldl (registerEndpointsStep env) st).endpointRouter.map Prod.snd
          = st.endpointRouter.map Prod.snd
            ++ List.range' st.routerCounter (endpointRegs env l).length ∧
        (l.foldl (registerEndpointsStep env) st).routerCounter
          = st.routerCounter + (endpointRegs env l).length := by
  intro l
  induction l with
  | nil => intro st; simp [endpointRegs]
  | cons e l ih =>
      intro st
      cases h : env.endpointModules (resolvePath e.path e.entrypoint.file) with
      | none =>
          have hr : endpointRegs env (e :: l) = endpointRegs env l := by
            simp [endpointRegs, h]
          simp only [List.foldl_cons, registerEndpointsStep, h, hr]
          exact ih st
      | some m =>
          have hr : endpointRegs env (e :: l)
              = (e.name, getModuleDefault m) :: endpointRegs env l := by
            simp [endpointRegs, h]
          simp only [List.foldl_cons, registerEndpointsStep, h, hr,
            registerEndpoint_eq]
          obtain ⟨h1, h2, h3⟩ := ih
            { st with
              endpointRouter := st.endpointRouter
                ++ [("/" ++ routeNameOf (getModuleDefault m) e.name, st.routerCounter)]
              routerCounter := st.routerCounter + 1
              endpoints := st.endpoints
                ++ [resolvePath e.path e.entrypoint.file] }
          refine ⟨?_, ?_, ?_⟩
          · rw [h1]; simp
          · rw [h2]; simp [range'_cons]
          · rw [h3]; simp; omega

/-- Claim C7: the mount segment on the shared endpoint router is the
extension name for a bare handler config and the config's id for an object
config, each mounted at `/<segment>` with a fresh sub-router (consecutive
fresh router ids); registering "alpha" and "beta" yields exactly the
segments `/alpha` and `/beta` in either registration order. -/
theorem endpoint_mount_segments (env : Env) (st : ManagerState) :
    ((registerEndpoints env st).endpointRouter.map Prod.fst
        = st.endpointRouter.map Prod.fst
          ++ (endpointRegs env (st.extensions.filter (fun e => e.type == "endpoint"))).map
            (fun pc => "/" ++ routeNameOf pc.2 pc.1)) ∧
      ((registerEndpoints env st).endpointRouter.map Prod.snd
        = st.endpointRouter.map Prod.snd
          ++ List.range' st.routerCounter
            (endpointRegs env (st.extensions.filter (fun e => e.type == "endpoint"))).length) ∧
      (registerEndpoints envAB stAB).endpointRouter.map Prod.fst = ["/alpha", "/beta"] ∧
      (registerEndpoints envAB stBA).endpointRouter.map Prod.fst = ["/beta", "/alpha"] ∧
      ((registerEndpoints envAB stAB).endpointRouter.map Prod.fst).Perm
        ((registerEndpoints envAB stBA).endpointRouter.map Prod.fst) := by
  obtain ⟨h1, h2, _⟩ :=
    endpointFold_spec env (st.extensions.filter (fun e => e.type == "endpoint")) st
  refine ⟨h1, h2, by decide, by decide, by decide⟩

theorem opsFold_spec (env : Env) :
    ∀ (srcs : List OperationSource) (st : ManagerState),
      (srcs.foldl (registerOperationsStep env) st).flowOperations
        = st.flowOperations ++ opRegs env srcs := by
  intro srcs
  induction srcs with
  | nil => intro st; simp [opRegs]
  | cons op srcs ih =>
      intro st
      cases h : env.operationModules (resolvePath op.path op.api) with
      | none =>
          have hr : opRegs env (op :: srcs) = opRegs env srcs := by simp [opRegs, h]
          simp only [List.foldl_cons, registerOperationsStep, h, hr]
          exact ih st
      | some m =>
          have hr : opRegs env (op :: srcs)
              = ((getModuleDefault m).id, (getModuleDefault m).handler) :: opRegs env srcs := by
            simp [opRegs, h]
          simp only [List.foldl_cons, registerOperationsStep, h, hr, registerOperation]
          rw [ih]
          simp

theorem opRegs_append (env : Env) (l1 l2 : List OperationSource) :
    opRegs env (l1 ++ l2) = opRegs env l1 ++ opRegs env l2 := by
  simp [opRegs, List.filterMap_append]

/-- Claim C8: in every load cycle the built-in operations (one per internal
operations directory, named by that directory) are all registered before
any user-supplied operation extension, and each configuration is forwarded
to the flow manager's registry as the pair (id, handler). -/
theorem operations_builtins_first (env : Env) (st : ManagerState) :
    (registerOperations env st).flowOperations
        = st.flowOperations
          ++ opRegs env (internalOperations env)
          ++ opRegs env
            ((st.extensions.filter (fun e => e.type == "operation")).map operationSourceOfExt) ∧
      (internalOperations env).map OperationSource.name
        = env.internalOperationPaths.map
          (fun p => (p.splitOn "/").getD ((p.splitOn "/").length - 2) "") := by
  constructor
  · rw [registerOperations, opsFold_spec, opRegs_append, List.append_assoc]
  · simp [internalOperations]

theorem applyRegCmd_env_congr (e1 e2 : Env) (h : e1.validCron = e2.validCron)
    (st : ManagerState) (ev : List EventHandler) (c : RegCmd) :
    applyRegCmd e1 st ev c = applyRegCmd e2 st ev c := by
  cases c <;> simp [applyRegCmd, h]

theorem regCmds_env_congr (e1 e2 : Env) (h : e1.validCron = e2.validCron) :
    ∀ (cmds : List RegCmd) (p : ManagerState × List EventHandler),
      cmds.foldl (applyRegCmdP e1) p = cmds.foldl (applyRegCmdP e2) p := by
  intro cmds
  induction cmds with
  | nil => intro p; rfl
  | cons c cmds ih =>
      intro p
      simp only [List.foldl_cons, applyRegCmdP]
      rw [applyRegCmd_env_congr e1 e2 h]
      exact ih _

theorem registerHook_env_congr (e1 e2 : Env) (h : e1.validCron = e2.validCron)
    (st : ManagerState) (cfg : HookConfig) (p : String) :
    registerHook e1 st cfg p = registerHook e2 st cfg p := by
  unfold registerHook
  rw [regCmds_env_congr e1 e2 h]

/-- Claim C4 (amended): the hook, endpoint and operation registrars
normalize the loaded module's export through `getModuleDefault`, so two
module maps whose exports agree after normalization produce identical
registrations; the storage registrar stores the raw export verbatim and is
exempt from this. -/
theorem registrar_normalization (env : Env)
    (m m' : String → Option (ModuleExport HookConfig))
    (n n' : String → Option (ModuleExport EndpointConfig))
    (o o' : String → Option (ModuleExport OperationApiConfig))
    (st : ManagerState)
    (hm : ∀ p, (m p).map getModuleDefault = (m' p).map getModuleDefault)
    (hn : ∀ p, (n p).map getModuleDefault = (n' p).map getModuleDefault)
    (ho : ∀ p, (o p).map getModuleDefault = (o' p).map getModuleDefault) :
    registerHooks { env with hookModules := m } st
        = registerHooks { env with hookModules := m' } st ∧
      registerEndpoints { env with endpointModules := n } st
        = registerEndpoints { env with endpointModules := n' } st ∧
      registerOperations { env with operationModules := o } st
        = registerOperations { env with operationModules := o' } st := by
  refine ⟨?_, ?_, ?_⟩
  · rw [registerHooks, registerHooks]
    have hfold : ∀ (l : List Extension) (s : ManagerState),
        l.foldl (registerHooksStep { env with hookModules := m }) s
          = l.foldl (registerHooksStep { env with hookModules := m' }) s := by
      intro l
      induction l with
      | nil => intro s; rfl
      | cons e l ih =>
          intro s
          have hstep : registerHooksStep { env with hookModules := m } s e
              = registerHooksStep { env with hookModules := m' } s e := by
            simp only [registerHooksStep]
            have he := hm (resolvePath e.path e.entrypoint.file)
            cases h1 : m (resolvePath e.path e.entrypoint.file) with
            | none =>
                cases h2 : m' (resolvePath e.path e.entrypoint.file) with
                | none => simp [h1, h2]
                | some mm => rw [h1, h2] at he; simp at he
            | some mm =>
                cases h2 : m' (resolvePath e.path e.entrypoint.file) with
                | none => rw [h1, h2] at he; simp at he
                | some mm' =>
                    rw [h1, h2] at he
                    simp only [Option.map_some', Option.some_inj] at he
                    simp only [h1, h2, he]
                    exact registerHook_env_congr _ _ rfl s (getModuleDefault mm')
                      (resolvePath e.path e.entrypoint.file)
          simp only [List.foldl_cons, hstep]
          exact ih _
    exact hfold _ st
  · rw [registerEndpoints, registerEndpoints]
    have hfold : ∀ (l : List Extension) (s : ManagerState),
        l.foldl (registerEndpointsStep { env with endpointModules := n }) s
          = l.foldl (registerEndpointsStep { env with endpointModules := n' }) s := by
      intro l
      induction l with
      | nil => intro s; rfl
      | cons e l ih =>
          intro s
          have hstep : registerEndpointsStep { env with endpointModules := n } s e
              = registerEndpointsStep { env with endpointModules := n' } s e := by
            simp only [registerEndpointsStep]
            have he := hn (resolvePath e.path e.entrypoint.file)
            cases h1 : n (resolvePath e.path e.entrypoint.file) with
            | none =>
                cases h2 : n' (resolvePath e.path e.entrypoint.file) with
                | none => simp [h1, h2]
                | some mm => rw [h1, h2] at he; simp at he
            | some mm =>
                cases h2 : n' (resolvePath e.path e.entrypoint.file) with
                | none => rw [h1, h2] at he; simp at he
                | some mm' =>
                    rw [h1, h2] at he
                    simp only [Option.map_some', Option.some_inj] at he
                    simp only [h1, h2, he]
          simp only [List.foldl_cons, hstep]
          exact ih _
    exact hfold _ st
  · rw [registerOperations, registerOperations]
    have hfold : ∀ (srcs : List OperationSource) (s : ManagerState),
        srcs.foldl (registerOperationsStep { env with operationModules := o }) s
          = srcs.foldl (registerOperationsStep { env with operationModules := o' }) s := by
      intro srcs
      induction srcs with
      | nil => intro s; rfl
      | cons op srcs ih =>
          intro s
          have hstep : registerOperationsStep { env with operationModules := o } s op
              = registerOperationsStep { env with operationModules := o' } s op := by
            simp only [registerOperationsStep]
            have he := ho (resolvePath op.path op.api)
            cases h1 : o (resolvePath op.path op.api) with
            | none =>
                cases h2 : o' (resolvePath op.path op.api) with
                | none => simp [h1, h2]
                | some mm => rw [h1, h2] at he; simp at he
            | some mm =>
                cases h2 : o' (resolvePath op.path op.api) with
                | none => rw [h1, h2] at he; simp at he
                | some mm' =>
                    rw [h1, h2] at he
                    simp only [Option.map_some', Option.some_inj] at he
                    simp only [h1, h2, he]
          simp only [List.foldl_cons, hstep]
          exact ih _
    exact hfold _ st

/-- Witness for C4 (amended) at concrete bare/wrapped module maps of each
normalizing type. -/
theorem registrar_normalization_witness :
    registerHooks { env0 with hookModules := hookModsBare } stC4
        = registerHooks { env0 with hookModules := hookModsWrapped } stC4 ∧
      registerEndpoints { env0 with endpointModules := endpModsBare } stC4
        = registerEndpoints { env0 with endpointModules := endpModsWrapped } stC4 ∧
      registerOperations { env0 with operationModules := opModsBare } stC4
        = registerOperations { env0 with operationModules := opModsWrapped } stC4 :=
  registrar_normalization env0 hookModsBare hookModsWrapped endpModsBare endpModsWrapped
    opModsBare opModsWrapped stC4
    (fun p => by
      by_cases hp : p = "pkg/good/index.js" <;>
        simp [hookModsBare, hookModsWrapped, hp, getModuleDefault])
    (fun p => by
      by_cases hp : p = "pkg/alpha/index.js" <;>
        simp [endpModsBare, endpModsWrapped, hp, getModuleDefault])
    (fun p => by
      by_cases hp : p = "pkg/op/api.js" <;>
        simp [opModsBare, opModsWrapped, hp, getModuleDefault])

/-- Counterexample to C4 as stated: the storage registrar does not
normalize — the same configuration exported bare versus default-wrapped
yields different stored registrations. -/
theorem storage_normalization_cx :
    getModuleDefault (ModuleExport.bare (7 : StorageConfig))
        = getModuleDefault (ModuleExport.wrapped (7 : StorageConfig)) ∧
      (registerStorages envStorageBare
          { freshManager env0 with extensions := [storageExt] }).storages
        ≠ (registerStorages envStorageWrapped
          { freshManager env0 with extensions := [storageExt] }).storages := by
  constructor
  · rfl
  · decide

theorem mem_toPackageExtensionPaths {q : String} {l : List Extension} :
    q ∈ toPackageExtensionPaths l
      ↔ ∃ e, e ∈ l ∧ e.isLocal = false ∧ q ∈ extensionWatchPaths e := by
  constructor
  · intro h
    obtain ⟨e, he, hq⟩ := List.mem_flatMap.mp h
    obtain ⟨hel, hloc⟩ := List.mem_filter.mp he
    exact ⟨e, hel, by simpa using hloc, hq⟩
  · rintro ⟨e, hel, hloc, hq⟩
    exact List.mem_flatMap.mpr ⟨e, List.mem_filter.mpr ⟨hel, by simp [hloc]⟩, hq⟩

theorem mem_addedOf {e : Extension} {prev cur : List Extension} :
    e ∈ addedOf prev cur ↔ e ∈ cur ∧ ∀ p ∈ prev, e.path ≠ p.path := by
  simp [addedOf, List.mem_filter]

theorem mem_removedOf {e : Extension} {prev cur : List Extension} :
    e ∈ removedOf prev cur ↔ e ∈ prev ∧ ∀ c ∈ cur, e.path ≠ c.path := by
  simp [removedOf, List.mem_filter]

theorem addedOf_self (S : List Extension) : addedOf S S = [] := by
  rw [addedOf, List.filter_eq_nil_iff]
  intro e he
  simp only [Bool.not_eq_true', Bool.not_eq_false, List.any_eq_true]
  exact ⟨e, he, by simp⟩

theorem removedOf_self (S : List Extension) : removedOf S S = [] := by
  rw [removedOf, List.filter_eq_nil_iff]
  intro e he
  simp only [Bool.not_eq_true', Bool.not_eq_false, List.any_eq_true]
  exact ⟨e, he, by simp⟩

theorem mem_applyWatchUpdate {q : String} {watched : List String}
    {added removed : List Extension} :
    q ∈ applyWatchUpdate watched added removed
      ↔ (q ∈ watched ∨ q ∈ toPackageExtensionPaths added) ∧
          q ∉ toPackageExtensionPaths removed := by
  simp [applyWatchUpdate, List.mem_filter]
  tauto

/-- Claim C5 (amended): the reload diff is exactly the path-based
symmetric difference, re-diffing an unchanged list adds and removes
nothing, and the incremental watch-set update reproduces the freshly
computed set — provided that (i) descriptors sharing a path across the two
cycles contribute the same watch files and locality (the diff is keyed by
path alone, so a same-path descriptor whose entrypoint changed is neither
re-added nor unwatched), and (ii) descriptors at distinct paths never
resolve to a common watch file. -/
theorem reload_watchset (S1 S2 : List Extension) (watched : List String)
    (hW : ∀ q, q ∈ watched ↔ q ∈ toPackageExtensionPaths S1)
    (hStable : ∀ e ∈ S1, ∀ f ∈ S2, e.path = f.path →
      extensionWatchPaths e = extensionWatchPaths f ∧ e.isLocal = f.isLocal)
    (hNoAlias : ∀ e, e ∈ S1 ++ S2 → ∀ f, f ∈ S1 ++ S2 → e.path ≠ f.path →
      ∀ q ∈ extensionWatchPaths e, q ∉ extensionWatchPaths f) :
    (∀ e, e ∈ addedOf S1 S2 ↔ e ∈ S2 ∧ ∀ p ∈ S1, e.path ≠ p.path) ∧
      (∀ e, e ∈ removedOf S1 S2 ↔ e ∈ S1 ∧ ∀ c ∈ S2, e.path ≠ c.path) ∧
      (∀ q, q ∈ applyWatchUpdate watched (addedOf S1 S2) (removedOf S1 S2)
        ↔ q ∈ toPackageExtensionPaths S2) ∧
      addedOf S1 S1 = [] ∧ removedOf S1 S1 = [] := by
  refine ⟨fun e => mem_addedOf, fun e => mem_removedOf, ?_, addedOf_self S1,
    removedOf_self S1⟩
  intro q
  rw [mem_applyWatchUpdate]
  constructor
  · rintro ⟨hin, hnotR⟩
    rcases hin with hw | hA
    · obtain ⟨e, heS1, hloc, hq⟩ := mem_toPackageExtensionPaths.mp ((hW q).mp hw)
      by_cases hpath : ∃ f, f ∈ S2 ∧ e.path = f.path
      · obtain ⟨f, hf, hfp⟩ := hpath
        obtain ⟨hwf, hlocf⟩ := hStable e heS1 f hf hfp
        exact mem_toPackageExtensionPaths.mpr
          ⟨f, hf, hlocf ▸ hloc, hwf ▸ hq⟩
      · push_neg at hpath
        have heR : e ∈ removedOf S1 S2 :=
          mem_removedOf.mpr ⟨heS1, fun c hc => hpath c hc⟩
        exact absurd (mem_toPackageExtensionPaths.mpr ⟨e, heR, hloc, hq⟩) hnotR
    · obtain ⟨e, heA, hloc, hq⟩ := mem_toPackageExtensionPaths.mp hA
      have he2 : e ∈ S2 := (mem_addedOf.mp heA).1
      exact mem_toPackageExtensionPaths.mpr ⟨e, he2, hloc, hq⟩
  · intro hq2
    obtain ⟨f, hf2, hlocf, hqf⟩ := mem_toPackageExtensionPaths.mp hq2
    constructor
    · by_cases hpath : ∃ e, e ∈ S1 ∧ e.path = f.path
      · obtain ⟨e, he1, hep⟩ := hpath
        obtain ⟨hwf, hlocef⟩ := hStable e he1 f hf2 hep
        exact Or.inl ((hW q).mpr (mem_toPackageExtensionPaths.mpr
          ⟨e, he1, hlocef.trans hlocf, hwf ▸ hqf⟩))
      · push_neg at hpath
        refine Or.inr (mem_toPackageExtensionPaths.mpr
          ⟨f, mem_addedOf.mpr ⟨hf2, fun p hp => ?_⟩, hlocf, hqf⟩)
        intro hfp
        exact hpath p hp hfp.symm
    · intro hqR
      obtain ⟨r, hrR, hlocr, hqr⟩ := mem_toPackageExtensionPaths.mp hqR
      obtain ⟨hr1, hrns⟩ := mem_removedOf.mp hrR
      exact hNoAlias r (List.mem_append_left _ hr1) f (List.mem_append_right _ hf2)
        (hrns f hf2) q hqr hqf

/-- Witness for C5 (amended): from one retained extension to the same
extension plus a new one, the incremental update tracks the new
extension's entrypoint, and re-diffing an unchanged list is empty. -/
theorem reload_watchset_witness :
    "pkg/other/index.js" ∈ applyWatchUpdate (toPackageExtensionPaths watchS1)
        (addedOf watchS1 watchS2) (removedOf watchS1 watchS2) ∧
      "pkg/watched/old.js" ∈ applyWatchUpdate (toPackageExtensionPaths watchS1)
        (addedOf watchS1 watchS2) (removedOf watchS1 watchS2) ∧
      addedOf watchS1 watchS1 = [] ∧ removedOf watchS1 watchS1 = [] := by
  have h := reload_watchset watchS1 watchS2 (toPackageExtensionPaths watchS1)
    (fun q => Iff.rfl) (by decide) (by decide)
  exact ⟨(h.2.2.1 "pkg/other/index.js").mpr (by decide),
    (h.2.2.1 "pkg/watched/old.js").mpr (by decide), h.2.2.2.1, h.2.2.2.2⟩

/-- Counterexample to C5 as stated: a package extension whose entrypoint
file changes while its path stays the same is neither added nor removed by
the path-keyed diff, so the incremental update misses the new entrypoint
that the fresh computation tracks. -/
theorem reload_watchset_cx :
    "pkg/watched/new.js" ∈ toPackageExtensionPaths [extNewEntry] ∧
      "pkg/watched/new.js" ∉ applyWatchUpdate (toPackageExtensionPaths [extOldEntry])
        (addedOf [extOldEntry] [extNewEntry]) (removedOf [extOldEntry] [extNewEntry]) ∧
      addedOf [extOldEntry] [extNewEntry] = [] ∧
      removedOf [extOldEntry] [extNewEntry] = [] := by
  exact ⟨by decide, by decide, by decide, by decide⟩

theorem regCmds_spec (env : Env) :
    ∀ (cmds : List RegCmd) (st : ManagerState) (ev : List EventHandler),
      ∃ (delta : List EventHandler) (newTasks : List ScheduledTask),
        (cmds.foldl (applyRegCmdP env) (st, ev)).2 = ev ++ delta ∧
          (cmds.foldl (applyRegCmdP env) (st, ev)).1.emitter.filters
            = st.emitter.filters ++ evFilters delta ∧
          (cmds.foldl (applyRegCmdP env) (st, ev)).1.emitter.actions
            = st.emitter.actions ++ evActions delta ∧
          (cmds.foldl (applyRegCmdP env) (st, ev)).1.emitter.inits
            = st.emitter.inits ++ evInits delta ∧
          (cmds.foldl (applyRegCmdP env) (st, ev)).1.tasks = st.tasks ++ newTasks ∧
          newTasks.map ScheduledTask.id = evTaskIds delta ∧
          (cmds.foldl (applyRegCmdP env) (st, ev)).1.hooks = st.hooks := by
  intro cmds
  induction cmds with
  | nil =>
      intro st ev
      refine ⟨[], [], ?_, ?_, ?_, ?_, ?_, ?_, ?_⟩ <;>
        simp [evFilters, evActions, evInits, evTaskIds]
  | cons c cmds ih =>
      intro st ev
      simp only [List.foldl_cons]
      cases c with
      | filter n h =>
          simp only [applyRegCmdP, applyRegCmd]
          obtain ⟨delta, nts, h2, hf, ha, hi, ht, hid, hh⟩ :=
            ih { st with emitter :=
                  { st.emitter with filters := st.emitter.filters ++ [(n, h)] } }
              (ev ++ [EventHandler.filterEv n h])
          refine ⟨EventHandler.filterEv n h :: delta, nts, ?_, ?_, ?_, ?_, ?_, ?_, ?_⟩
          · rw [h2]; simp
          · rw [hf]; simp [evFilters, eventFilterKey]
          · rw [ha]; simp [evActions, eventActionKey]
          · rw [hi]; simp [evInits, eventInitKey]
          · rw [ht]
          · rw [hid]; simp [evTaskIds, eventTaskId]
          · rw [hh]
      | action n h =>
          simp only [applyRegCmdP, applyRegCmd]
          obtain ⟨delta, nts, h2, hf, ha, hi, ht, hid, hh⟩ :=
            ih { st with emitter :=
                  { st.emitter with actions := st.emitter.actions ++ [(n, h)] } }
              (ev ++ [EventHandler.actionEv n h])
          refine ⟨EventHandler.actionEv n h :: delta, nts, ?_, ?_, ?_, ?_, ?_, ?_, ?_⟩
          · rw [h2]; simp
          · rw [hf]; simp [evFilters, eventFilterKey]
          · rw [ha]; simp [evActions, eventActionKey]
          · rw [hi]; simp [evInits, eventInitKey]
          · rw [ht]
          · rw [hid]; simp [evTaskIds, eventTaskId]
          · rw [hh]
      | init n h =>
          simp only [applyRegCmdP, applyRegCmd]
          obtain ⟨delta, nts, h2, hf, ha, hi, ht, hid, hh⟩ :=
            ih { st with emitter :=
                  { st.emitter with inits := st.emitter.inits ++ [(n, h)] } }
              (ev ++ [EventHandler.initEv n h])
          refine ⟨EventHandler.initEv n h :: delta, nts, ?_, ?_, ?_, ?_, ?_, ?_, ?_⟩
          · rw [h2]; simp
          · rw [hf]; simp [evFilters, eventFilterKey]
          · rw [ha]; simp [evActions, eventActionKey]
          · rw [hi]; simp [evInits, eventInitKey]
          · rw [ht]
          · rw [hid]; simp [evTaskIds, eventTaskId]
          · rw [hh]
      | schedule cron h =>
          by_cases hv : env.validCron cron
          · simp only [applyRegCmdP, applyRegCmd, hv, if_true]
            obtain ⟨delta, nts, h2, hf, ha, hi, ht, hid, hh⟩ :=
              ih { st with
                    tasks := st.tasks
                      ++ [{ id := st.nextTaskId, cron := cron, handler := h }]
                    nextTaskId := st.nextTaskId + 1 }
                (ev ++ [EventHandler.scheduleEv st.nextTaskId])
            refine ⟨EventHandler.scheduleEv st.nextTaskId :: delta,
              { id := st.nextTaskId, cron := cron, handler := h } :: nts,
              ?_, ?_, ?_, ?_, ?_, ?_, ?_⟩
            · rw [h2]; simp
            · rw [hf]; simp [evFilters, eventFilterKey]
            · rw [ha]; simp [evActions, eventActionKey]
            · rw [hi]; simp [evInits, eventInitKey]
            · rw [ht]; simp
            · simp only [List.map_cons, hid]
              simp [evTaskIds, eventTaskId]
            · rw [hh]
          · simp only [applyRegCmdP, applyRegCmd, hv, if_false]
            exact ih st ev

theorem eraseList_append {α : Type} [BEq α] (l a b : List α) :
    eraseList l (a ++ b) = eraseList (eraseList l a) b := by
  simp [eraseList, List.foldl_append]

theorem eraseTasks_append (ts : List ScheduledTask) (a b : List Nat) :
    eraseTasks ts (a ++ b) = eraseTasks (eraseTasks ts a) b := by
  simp [eraseTasks, List.foldl_append]

theorem recFilters_cons (r : HookRecord) (hooks : List HookRecord) :
    recFilters (r :: hooks) = evFilters r.events ++ recFilters hooks := by
  simp [recFilters, evFilters]

theorem recActions_cons (r : HookRecord) (hooks : List HookRecord) :
    recActions (r :: hooks) = evActions r.events ++ recActions hooks := by
  simp [recActions, evActions]

theorem recInits_cons (r : HookRecord) (hooks : List HookRecord) :
    recInits (r :: hooks) = evInits r.events ++ recInits hooks := by
  simp [recInits, evInits]

theorem recTaskIds_cons (r : HookRecord) (hooks : List HookRecord) :
    recTaskIds (r :: hooks) = evTaskIds r.events ++ recTaskIds hooks := by
  simp [recTaskIds, evTaskIds]

theorem offEventsFold_proj (evs : List EventHandler) :
    ∀ st : ManagerState,
      (evs.foldl offEvent st).emitter.filters
          = eraseList st.emitter.filters (evFilters evs) ∧
        (evs.foldl offEvent st).emitter.actions
          = eraseList st.emitter.actions (evActions evs) ∧
        (evs.foldl offEvent st).emitter.inits
          = eraseList st.emitter.inits (evInits evs) ∧
        (evs.foldl offEvent st).tasks = eraseTasks st.tasks (evTaskIds evs) := by
  induction evs with
  | nil => intro st; exact ⟨rfl, rfl, rfl, rfl⟩
  | cons e evs ih =>
      intro st
      cases e with
      | filterEv n h =>
          simp only [List.foldl_cons, offEvent]
          obtain ⟨h1, h2, h3, h4⟩ := ih
            { st with emitter :=
                { st.emitter with filters := st.emitter.filters.erase (n, h) } }
          refine ⟨?_, ?_, ?_, ?_⟩
          · rw [h1]; simp [evFilters, eventFilterKey, eraseList]
          · rw [h2]; simp [evActions, eventActionKey]
          · rw [h3]; simp [evInits, eventInitKey]
          · rw [h4]; simp [evTaskIds, eventTaskId]
      | actionEv n h =>
          simp only [List.foldl_cons, offEvent]
          obtain ⟨h1, h2, h3, h4⟩ := ih
            { st with emitter :=
                { st.emitter with actions := st.emitter.actions.erase (n, h) } }
          refine ⟨?_, ?_, ?_, ?_⟩
          · rw [h1]; simp [evFilters, eventFilterKey]
          · rw [h2]; simp [evActions, eventActionKey, eraseList]
          · rw [h3]; simp [evInits, eventInitKey]
          · rw [h4]; simp [evTaskIds, eventTaskId]
      | initEv n h =>
          simp only [List.foldl_cons, offEvent]
          obtain ⟨h1, h2, h3, h4⟩ := ih
            { st with emitter :=
                { st.emitter with inits := st.emitter.inits.erase (n, h) } }
          refine ⟨?_, ?_, ?_, ?_⟩
          · rw [h1]; simp [evFilters, eventFilterKey]
          · rw [h2]; simp [evActions, eventActionKey]
          · rw [h3]; simp [evInits, eventInitKey, eraseList]
          · rw [h4]; simp [evTaskIds, eventTaskId]
      | scheduleEv tid =>
          simp only [List.foldl_cons, offEvent]
          obtain ⟨h1, h2, h3, h4⟩ := ih { st with tasks := eraseTask st.tasks tid }
          refine ⟨?_, ?_, ?_, ?_⟩
          · rw [h1]; simp [evFilters, eventFilterKey]
          · rw [h2]; simp [evActions, eventActionKey]
          · rw [h3]; simp [evInits, eventInitKey]
          · rw [h4]; simp [evTaskIds, eventTaskId, eraseTasks]

theorem unregFold_proj (hooks : List HookRecord) :
    ∀ st : ManagerState,
      (hooks.foldl offEvents st).emitter.filters
          = eraseList st.emitter.filters (recFilters hooks) ∧
        (hooks.foldl offEvents st).emitter.actions
          = eraseList st.emitter.actions (recActions hooks) ∧
        (hooks.foldl offEvents st).emitter.inits
          = eraseList st.emitter.inits (recInits hooks) ∧
        (hooks.foldl offEvents st).tasks = eraseTasks st.tasks (recTaskIds hooks) := by
  induction hooks with
  | nil => intro st; exact ⟨rfl, rfl, rfl, rfl⟩
  | cons r hooks ih =>
      intro st
      simp only [List.foldl_cons]
      obtain ⟨g1, g2, g3, g4⟩ := offEventsFold_proj r.events st
      obtain ⟨h1, h2, h3, h4⟩ := ih (offEvents st r)
      refine ⟨?_, ?_, ?_, ?_⟩
      · rw [h1, recFilters_cons, eraseList_append]
        rw [show (offEvents st r).emitter.filters
          = eraseList st.emitter.filters (evFilters r.events) from g1]
      · rw [h2, recActions_cons, eraseList_append]
        rw [show (offEvents st r).emitter.actions
          = eraseList st.emitter.actions (evActions r.events) from g2]
      · rw [h3, recInits_cons, eraseList_append]
        rw [show (offEvents st r).emitter.inits
          = eraseList st.emitter.inits (evInits r.events) from g3]
      · rw [h4, recTaskIds_cons, eraseTasks_append]
        rw [show (offEvents st r).tasks
          = eraseTasks st.tasks (evTaskIds r.events) from g4]

theorem eraseList_self {α : Type} [BEq α] [LawfulBEq α] : ∀ l : List α, eraseList l l = [] := by
  intro l
  induction l with
  | nil => rfl
  | cons a t ih =>
      have h : (a :: t).erase a = t := by simp
      calc eraseList (a :: t) (a :: t)
          = eraseList ((a :: t).erase a) t := by simp [eraseList]
        _ = eraseList t t := by rw [h]
        _ = [] := ih

theorem eraseTasks_self : ∀ ts : List ScheduledTask,
    eraseTasks ts (ts.map ScheduledTask.id) = [] := by
  intro ts
  induction ts with
  | nil => rfl
  | cons t ts ih =>
      have h : eraseTask (t :: ts) t.id = ts := by simp [eraseTask]
      calc eraseTasks (t :: ts) (t.id :: ts.map ScheduledTask.id)
          = eraseTasks (eraseTask (t :: ts) t.id) (ts.map ScheduledTask.id) := by
            simp [eraseTasks]
        _ = eraseTasks ts (ts.map ScheduledTask.id) := by rw [h]
        _ = [] := ih

theorem registerHook_spec (env : Env) (st : ManagerState) (cfg : HookConfig)
    (p : String) (hthrows : cfg.throws = false) :
    ∃ (events : List EventHandler) (newTasks : List ScheduledTask),
      (registerHook env st cfg p).hooks
          = st.hooks ++ [{ path := p, events := events }] ∧
        (registerHook env st cfg p).emitter.filters
          = st.emitter.filters ++ evFilters events ∧
        (registerHook env st cfg p).emitter.actions
          = st.emitter.actions ++ evActions events ∧
        (registerHook env st cfg p).emitter.inits
          = st.emitter.inits ++ evInits events ∧
        (registerHook env st cfg p).tasks = st.tasks ++ newTasks ∧
        newTasks.map ScheduledTask.id = evTaskIds events := by
  obtain ⟨delta, nts, h2, hf, ha, hi, ht, hid, hh⟩ := regCmds_spec env cfg.cmds st []
  refine ⟨delta, nts, ?_, ?_, ?_, ?_, ?_, hid⟩ <;>
    simp only [registerHook, hthrows, Bool.false_eq_true, if_false]
  · rw [hh]
    rw [show (cfg.cmds.foldl (applyRegCmdP env) (st, [])).2 = delta from by
      simpa using h2]
  · exact hf
  · exact ha
  · exact hi
  · exact ht

theorem registerHooksFold_spec (env : Env)
    (hm : ∀ p mm, env.hookModules p = some mm → (getModuleDefault mm).throws = false) :
    ∀ (l : List Extension) (st : ManagerState),
      ∃ (newRecs : List HookRecord) (newTasks : List ScheduledTask),
        (l.foldl (registerHooksStep env) st).hooks = st.hooks ++ newRecs ∧
          newRecs.map HookRecord.path = successHookPaths env l ∧
          (l.foldl (registerHooksStep env) st).emitter.filters
            = st.emitter.filters ++ recFilters newRecs ∧
          (l.foldl (registerHooksStep env) st).emitter.actions
            = st.emitter.actions ++ recActions newRecs ∧
          (l.foldl (registerHooksStep env) st).emitter.inits
            = st.emitter.inits ++ recInits newRecs ∧
          (l.foldl (registerHooksStep env) st).tasks = st.tasks ++ newTasks ∧
          newTasks.map ScheduledTask.id = recTaskIds newRecs := by
  intro l
  induction l with
  | nil =>
      intro st
      refine ⟨[], [], ?_, ?_, ?_, ?_, ?_, ?_, ?_⟩ <;>
        simp [successHookPaths, recFilters, recActions, recInits, recTaskIds,
          evFilters, evActions, evInits, evTaskIds]
  | cons e l ih =>
      intro st
      simp only [List.foldl_cons]
      cases hmod : env.hookModules (resolvePath e.path e.entrypoint.file) with
      | none =>
          have hstep : registerHooksStep env st e = st := by
            simp [registerHooksStep, hmod]
          rw [hstep]
          obtain ⟨recs, nts, hh, hp, hf, ha, hi, ht, hid⟩ := ih st
          refine ⟨recs, nts, hh, ?_, hf, ha, hi, ht, hid⟩
          rw [hp]
          simp [successHookPaths, hookPathOf, hmod]
      | some mm =>
          have hthr := hm _ mm hmod
          have hstep : registerHooksStep env st e
              = registerHook env st (getModuleDefault mm)
                  (resolvePath e.path e.entrypoint.file) := by
            simp [registerHooksStep, hmod]
          rw [hstep]
          obtain ⟨events, nts1, hh1, hf1, ha1, hi1, ht1, hid1⟩ :=
            registerHook_spec env st (getModuleDefault mm)
              (resolvePath e.path e.entrypoint.file) hthr
          obtain ⟨recs, nts2, hh2, hp2, hf2, ha2, hi2, ht2, hid2⟩ :=
            ih (registerHook env st (getModuleDefault mm)
              (resolvePath e.path e.entrypoint.file))
          refine ⟨{ path := resolvePath e.path e.entrypoint.file, events := events } :: recs,
            nts1 ++ nts2, ?_, ?_, ?_, ?_, ?_, ?_, ?_⟩
          · rw [hh2, hh1]; simp
          · simp only [List.map_cons, hp2]
            simp [successHookPaths, hookPathOf, hmod]
          · rw [hf2, hf1, recFilters_cons]; simp
          · rw [ha2, ha1, recActions_cons]; simp
          · rw [hi2, hi1, recInits_cons]; simp
          · rw [ht2, ht1]; simp
          · rw [recTaskIds_cons, List.map_append, hid1, hid2]

theorem successHookPaths_count (env : Env) :
    ∀ l : List Extension,
      (successHookPaths env l).length
          + (l.filter (fun e => (env.hookModules (hookPathOf e)).isNone)).length
        = l.length := by
  intro l
  induction l with
  | nil => rfl
  | cons e l ih =>
      cases h : env.hookModules (resolvePath e.path e.entrypoint.file) with
      | none =>
          simp only [successHookPaths, hookPathOf] at ih ⊢
          simp [List.filterMap_cons, List.filter_cons, h]
          omega
      | some mm =>
          simp only [successHookPaths, hookPathOf] at ih ⊢
          simp [List.filterMap_cons, List.filter_cons, h]
          omega

theorem load_hook_components (env : Env) (st : ManagerState)
    (hdisc : env.discoveryThrows = false) :
    (load env st).hooks
        = (registerHooks env { st with extensions := getExtensions env }).hooks ∧
      (load env st).emitter
        = (registerHooks env { st with extensions := getExtensions env }).emitter ∧
      (load env st).tasks
        = (registerHooks env { st with extensions := getExtensions env }).tasks := by
  unfold load
  simp only [hdisc, Bool.false_eq_true, if_false]
  obtain ⟨he2, ht2, hh2⟩ := registerEndpoints_hookStatePres env
    (registerHooks env { st with extensions := getExtensions env })
  obtain ⟨he3, ht3, hh3⟩ := registerStorages_hookStatePres env
    (registerEndpoints env (registerHooks env { st with extensions := getExtensions env }))
  obtain ⟨he4, ht4, hh4⟩ := registerOperations_hookStatePres env
    (registerStorages env (registerEndpoints env
      (registerHooks env { st with extensions := getExtensions env })))
  split <;>
    exact ⟨by simp only [hh4, hh3, hh2], by simp only [he4, he3, he2],
      by simp only [ht4, ht3, ht2]⟩

theorem unload_hook_components (env : Env) (st : ManagerState) :
    (unload env st).emitter = (st.hooks.foldl offEvents st).emitter ∧
      (unload env st).tasks = (st.hooks.foldl offEvents st).tasks := by
  unfold unload unregisterHooks unregisterEndpoints unregisterStorages
    unregisterOperations
  split <;> exact ⟨rfl, rfl⟩

/-- Claim C1 (amended): for N discovered hook extensions of which k fail
registration at module load, `load()` completes and exactly the N−k
successfully registered extensions contribute records to the API registry
(their resolved paths, in order); provided every present module's register
function runs to completion, a subsequent `unload()` removes precisely the
recorded bindings — the host emitter returns to empty and every created
task is stopped. An extension whose register function throws partway
through is excluded from this guarantee: its already-added bindings are
never recorded, so unregistration does not remove them. -/
theorem load_unload_hook_bindings (env : Env) (st : ManagerState)
    (hhooks : st.hooks = []) (hemit : st.emitter = emptyEmitter)
    (htasks : st.tasks = []) (hdisc : env.discoveryThrows = false)
    (hm : ∀ p mm, env.hookModules p = some mm → (getModuleDefault mm).throws = false) :
    (load env st).hooks.map HookRecord.path
        = successHookPaths env ((getExtensions env).filter (fun e => e.type == "hook")) ∧
      (load env st).hooks.length
          + (((getExtensions env).filter (fun e => e.type == "hook")).filter
              (fun e => (env.hookModules (hookPathOf e)).isNone)).length
        = ((getExtensions env).filter (fun e => e.type == "hook")).length ∧
      (unload env (load env st)).hooks = [] ∧
      (unload env (load env st)).emitter = emptyEmitter ∧
      (unload env (load env st)).tasks = [] := by
  obtain ⟨hLh, hLe, hLt⟩ := load_hook_components env st hdisc
  obtain ⟨newRecs, newTasks, hh, hp, hf, ha, hi, ht, hid⟩ :=
    registerHooksFold_spec env hm
      ((getExtensions env).filter (fun e => e.type == "hook"))
      { st with extensions := getExtensions env }
  have hrh : registerHooks env { st with extensions := getExtensions env }
      = ((getExtensions env).filter (fun e => e.type == "hook")).foldl
          (registerHooksStep env) { st with extensions := getExtensions env } := rfl
  rw [hrh] at hLh hLe hLt
  have hLhooks : (load env st).hooks = newRecs := by
    rw [hLh, hh]
    simp [hhooks]
  have hfil : (load env st).emitter.filters = recFilters newRecs := by
    rw [hLe, hf]
    simp [hemit, emptyEmitter]
  have hact : (load env st).emitter.actions = recActions newRecs := by
    rw [hLe, ha]
    simp [hemit, emptyEmitter]
  have hini : (load env st).emitter.inits = recInits newRecs := by
    rw [hLe, hi]
    simp [hemit, emptyEmitter]
  have htL : (load env st).tasks = newTasks := by
    rw [hLt, ht]
    simp [htasks]
  refine ⟨?_, ?_, ?_, ?_, ?_⟩
  · rw [hLhooks, hp]
  · have hlen : newRecs.length
        = (successHookPaths env
            ((getExtensions env).filter (fun e => e.type == "hook"))).length := by
      have := congrArg List.length hp
      simpa using this
    rw [hLhooks, hlen]
    exact successHookPaths_count env _
  · exact (unload_spec env (load env st)).2.2.2.2.2.1
  · obtain ⟨hUe, _⟩ := unload_hook_components env (load env st)
    obtain ⟨u1, u2, u3, _⟩ := unregFold_proj (load env st).hooks (load env st)
    rw [hUe]
    calc ((load env st).hooks.foldl offEvents (load env st)).emitter
        = ⟨((load env st).hooks.foldl offEvents (load env st)).emitter.filters,
            ((load env st).hooks.foldl offEvents (load env st)).emitter.actions,
            ((load env st).hooks.foldl offEvents (load env st)).emitter.inits⟩ := rfl
      _ = ⟨[], [], []⟩ := by
            rw [u1, u2, u3, hLhooks, hfil, hact, hini,
              eraseList_self, eraseList_self, eraseList_self]
      _ = emptyEmitter := rfl
  · obtain ⟨_, hUt⟩ := unload_hook_components env (load env st)
    obtain ⟨_, _, _, u4⟩ := unregFold_proj (load env st).hooks (load env st)
    rw [hUt, u4, hLhooks, htL, ← hid]
    exact eraseTasks_self newTasks

/-- Witness for C1 (amended): three discovered hooks, one failing to load —
after the cycle the registry holds 2 = 3 − 1 records, and unload restores
the emitter and stops every task. -/
theorem load_unload_hook_bindings_witness :
    (load envHooks (freshManager envHooks)).hooks.map HookRecord.path
        = successHookPaths envHooks
            ((getExtensions envHooks).filter (fun e => e.type == "hook")) ∧
      (load envHooks (freshManager envHooks)).hooks.length
          + (((getExtensions envHooks).filter (fun e => e.type == "hook")).filter
              (fun e => (envHooks.hookModules (hookPathOf e)).isNone)).length
        = ((getExtensions envHooks).filter (fun e => e.type == "hook")).length ∧
      (unload envHooks (load envHooks (freshManager envHooks))).emitter = emptyEmitter ∧
      (unload envHooks (load envHooks (freshManager envHooks))).tasks = [] ∧
      (load envHooks (freshManager envHooks)).hooks.length = 2 := by
  have hm : ∀ p mm, envHooks.hookModules p = some mm →
      (getModuleDefault mm).throws = false := by
    intro p mm h
    by_cases h1 : p = "pkg/good/index.js"
    · simp [envHooks, h1] at h
      rw [← h]
      rfl
    · by_cases h2 : p = "pkg/cron/index.js"
      · simp [envHooks, h1, h2] at h
        rw [← h]
        rfl
      · simp [envHooks, h1, h2] at h
  have h := load_unload_hook_bindings envHooks (freshManager envHooks)
    rfl rfl rfl rfl hm
  exact ⟨h.1, h.2.1, h.2.2.2.1, h.2.2.2.2, by decide⟩

/-- Counterexample to C1 as stated: a hook whose register function adds a
filter binding and then throws contributes no registry record, yet its
emitter binding survives `unload()` — that binding has no removal path. -/
theorem load_unload_hook_bindings_cx :
    (load envLeak (freshManager envLeak)).emitter.filters = [("items.create", 0)] ∧
      (load envLeak (freshManager envLeak)).hooks = [] ∧
      (unload envLeak (load envLeak (freshManager envLeak))).emitter.filters
        = [("items.create", 0)] ∧
      (unload envLeak (load envLeak (freshManager envLeak))).emitter.filters ≠ [] := by
  exact ⟨by decide, by decide, by decide, by decide⟩
